import Mathlib

/-!
Shallow embedding of the loot_core crate (LukeThayer/loot_generator) and
proofs about it.

Embedding conventions, fixed once for the whole file:

* Machine integers are embedded as `Nat` (u8/u16/u32/u64/usize) or `Int`
  (i32).  The arithmetic performed by the source on these types never
  overflows in the paths modelled here, so no explicit wrap-around is
  inserted except in the binary codec, whose length fields truncate exactly
  as the source does.
* f32 values are embedded as exact fractions (`FloatVal`, a numerator and a
  positive denominator).  The source's float arithmetic is modelled as exact
  rational arithmetic; on the small integral values exercised by these
  claims the two coincide, and the properties at issue compare rounding
  conventions, not float error.  A Rust `as i32` cast of a finite f32 is
  truncation toward zero, embedded as `Int.tdiv`.
* The source's `HashMap` tables (base types, affixes, pools, currencies,
  uniques, keyed by the entity's `id` field) are embedded as lists of the
  entries; `get` is lookup by id, and `values()` iteration is the list
  order, which stands for the hash map's (unspecified) iteration order.
* The RNG (`rand_chacha::ChaCha8Rng`, an external crate) is embedded as the
  pair of the 64-bit seed and a draw counter, together with a fixed
  deterministic word stream `rngWord seed pos`.  Each primitive draw the
  source performs (`gen::<u32>()`, `gen_range`, `gen_bool`) consumes one
  word.  All properties proved below depend only on the stream being a
  deterministic function of `(seed, position)` and on how the generator
  state is threaded, never on the concrete words.
* Stateful Rust (`&mut Item`, `&mut Rng`) becomes explicit state passing:
  a function `fn f(&mut Item, &mut Rng) -> Result<(), E>` becomes
  `f : ... → Option CurrencyError × State × Rng`, returning the final
  (possibly partially mutated) state together with the optional error,
  exactly as the caller of the Rust function observes it.
* The currency pipeline reads and writes only the item fields
  `name, rarity, prefixes, suffixes` and reads only
  `base_type_id, base_name, class, tags, requirements`; it is therefore
  factored through `CraftState` (the mutated fields) and `CraftCtx` (the
  read-only fields), and `applyCurrency` on a full `Item` is the canonical
  instance of that factoring.
-/

/-- Exact-fraction model of an f32 value: `num / den` with `den > 0` by
construction at every use site. -/
structure FloatVal where
  num : Int
  den : Int
deriving DecidableEq, Repr

/-- Model of `f32::clamp(x, 0.0, 1.0)` on a `FloatVal` (for positive `den`). -/
def FloatVal.clampUnit (x : FloatVal) : FloatVal :=
  if x.num ≤ 0 then ⟨0, 1⟩ else if x.den ≤ x.num then ⟨1, 1⟩ else x

/-- Model of `i32::clamp(x, lo, hi)` (callers guarantee `lo ≤ hi`). -/
def intClamp (x lo hi : Int) : Int := max lo (min x hi)

/-- Item rarity levels (types.rs). -/
inductive Rarity
  | normal
  | magic
  | rare
  | unique
deriving DecidableEq, Repr

/-- Maximum prefix modifiers per rarity (types.rs, Rarity::max_prefixes). -/
def Rarity.maxPrefixes : Rarity → Nat
  | .normal => 0
  | .magic => 1
  | .rare => 3
  | .unique => 0

/-- Maximum suffix modifiers per rarity (types.rs, Rarity::max_suffixes). -/
def Rarity.maxSuffixes : Rarity → Nat
  | .normal => 0
  | .magic => 1
  | .rare => 3
  | .unique => 0

/-- Item class categories (types.rs, ItemClass). -/
inductive ItemClass
  | oneHandSword | oneHandAxe | oneHandMace | dagger | claw | wand
  | twoHandSword | twoHandAxe | twoHandMace | bow | staff
  | shield
  | helmet | bodyArmour | gloves | boots
  | ring | amulet | belt
deriving DecidableEq, Repr

/-- Affix kind (types.rs, AffixType): `pre` embeds the source's `Prefix`
constructor and `suf` its `Suffix` constructor. -/
inductive AffixType
  | pre
  | suf
deriving DecidableEq, Repr

/-- The other affix kind (used by the add-random-affix retry). -/
def AffixType.other : AffixType → AffixType
  | .pre => .suf
  | .suf => .pre

/-- Modifier scope (types.rs, AffixScope::{Local, Global}). -/
inductive AffixScope
  | localScope
  | globalScope
deriving DecidableEq, Repr

/-- Damage types (types.rs, DamageType). -/
inductive DamageType
  | physical | fire | cold | lightning | chaos
deriving DecidableEq, Repr

/-- Stat tags an affix can modify (types.rs, StatType; full enumeration). -/
inductive StatType
  | addedPhysicalDamage | addedFireDamage | addedColdDamage
  | addedLightningDamage | addedChaosDamage
  | increasedPhysicalDamage | increasedFireDamage | increasedColdDamage
  | increasedLightningDamage | increasedElementalDamage | increasedChaosDamage
  | increasedAttackSpeed | increasedCriticalChance | increasedCriticalDamage
  | poisonDamageOverTime | increasedPoisonDuration | poisonMagnitude
  | poisonMaxStacks | convertPhysicalToPoison | convertFireToPoison
  | convertColdToPoison | convertLightningToPoison | convertChaosToPoison
  | bleedDamageOverTime | increasedBleedDuration | bleedMagnitude
  | bleedMaxStacks | convertPhysicalToBleed | convertFireToBleed
  | convertColdToBleed | convertLightningToBleed | convertChaosToBleed
  | burnDamageOverTime | increasedBurnDuration | burnMagnitude
  | burnMaxStacks | convertPhysicalToBurn | convertFireToBurn
  | convertColdToBurn | convertLightningToBurn | convertChaosToBurn
  | increasedFreezeDuration | freezeMagnitude | freezeMaxStacks
  | convertPhysicalToFreeze | convertFireToFreeze | convertColdToFreeze
  | convertLightningToFreeze | convertChaosToFreeze
  | increasedChillDuration | chillMagnitude | chillMaxStacks
  | convertPhysicalToChill | convertFireToChill | convertColdToChill
  | convertLightningToChill | convertChaosToChill
  | increasedStaticDuration | staticMagnitude | staticMaxStacks
  | convertPhysicalToStatic | convertFireToStatic | convertColdToStatic
  | convertLightningToStatic | convertChaosToStatic
  | increasedFearDuration | fearMagnitude | fearMaxStacks
  | convertPhysicalToFear | convertFireToFear | convertColdToFear
  | convertLightningToFear | convertChaosToFear
  | increasedSlowDuration | slowMagnitude | slowMaxStacks
  | convertPhysicalToSlow | convertFireToSlow | convertColdToSlow
  | convertLightningToSlow | convertChaosToSlow
  | addedArmour | addedEvasion | addedEnergyShield
  | increasedArmour | increasedEvasion | increasedEnergyShield
  | addedStrength | addedDexterity | addedConstitution | addedIntelligence
  | addedWisdom | addedCharisma | addedAllAttributes
  | addedLife | addedMana | increasedLife | increasedMana
  | lifeRegeneration | manaRegeneration | lifeOnHit | lifeLeech | manaLeech
  | fireResistance | coldResistance | lightningResistance | chaosResistance
  | allResistances
  | addedAccuracy | increasedAccuracy | increasedMovementSpeed
  | increasedItemRarity | increasedItemQuantity
deriving DecidableEq, Repr

/-- Equip requirements (types.rs, Requirements). -/
structure Requirements where
  level : Nat
  strength : Nat
  dexterity : Nat
  constitution : Nat
  intelligence : Nat
  wisdom : Nat
  charisma : Nat
deriving DecidableEq, Repr

/-- A tag used for spawn weighting (types.rs). -/
abbrev Tag := String

/-- Inclusive roll range (config.rs, RollRange). -/
structure RollRange where
  min : Int
  max : Int
deriving DecidableEq, Repr

/-- Base implicit configuration (config.rs, ImplicitConfig). -/
structure ImplicitConfig where
  stat : StatType
  min : Int
  max : Int
deriving DecidableEq, Repr

/-- Base defenses configuration (config.rs, DefensesConfig). -/
structure DefensesConfig where
  armour : Option RollRange
  evasion : Option RollRange
  energyShield : Option RollRange
deriving DecidableEq, Repr

/-- One weapon damage entry (config.rs, DamageEntry). -/
structure DamageEntry where
  damageType : DamageType
  min : Int
  max : Int
deriving DecidableEq, Repr

/-- Weapon damage configuration (config.rs, DamageConfig). -/
structure DamageConfig where
  damages : List DamageEntry
  attackSpeed : FloatVal
  criticalChance : FloatVal
  spellEfficiency : FloatVal
deriving DecidableEq, Repr

/-- Base item type configuration (config.rs, BaseTypeConfig). -/
structure BaseTypeConfig where
  id : String
  name : String
  itemClass : ItemClass
  tags : List Tag
  implicit : Option ImplicitConfig
  defenses : Option DefensesConfig
  damage : Option DamageConfig
  requirements : Requirements
deriving DecidableEq, Repr

/-- One tier of an affix (config.rs, AffixTierConfig). -/
structure AffixTierConfig where
  tier : Nat
  weight : Nat
  min : Int
  max : Int
  maxValue : Option RollRange
  minIlvl : Nat
deriving DecidableEq, Repr

/-- Affix configuration (config.rs, AffixConfig). -/
structure AffixConfig where
  id : String
  name : String
  affixType : AffixType
  stat : StatType
  scope : AffixScope
  tags : List Tag
  allowedClasses : List ItemClass
  tiers : List AffixTierConfig
deriving DecidableEq, Repr

/-- Affix pool configuration (config.rs, AffixPoolConfig). -/
structure AffixPoolConfig where
  id : String
  name : String
  description : String
  affixes : List String
deriving DecidableEq, Repr

/-- Requirements gate of a currency (config.rs, CurrencyRequirements). -/
structure CurrencyRequirements where
  rarities : List Rarity
  hasAffix : Bool
  hasAffixSlot : Bool
deriving DecidableEq, Repr

/-- How many random affixes to add (config.rs, AffixCount). -/
structure AffixCount where
  min : Nat
  max : Nat
deriving DecidableEq, Repr

/-- A specific affix a currency can add (config.rs, SpecificAffix). -/
structure SpecificAffix where
  id : String
  tier : Option Nat
  weight : Nat
deriving DecidableEq, Repr

/-- Effects pipeline of a currency (config.rs, CurrencyEffects). -/
structure CurrencyEffects where
  setRarity : Option Rarity
  clearAffixes : Bool
  addAffixes : Option AffixCount
  addSpecificAffix : List SpecificAffix
  removeAffixes : Option Nat
  rerollAffixes : Option Nat
  tryUnique : Bool
  affixPools : List String
deriving DecidableEq, Repr

/-- Currency configuration (config.rs, CurrencyConfig). -/
structure CurrencyConfig where
  id : String
  name : String
  description : String
  category : String
  requires : CurrencyRequirements
  effects : CurrencyEffects
deriving DecidableEq, Repr

/-- One mod of a unique (config.rs, UniqueModConfig). -/
structure UniqueModConfig where
  stat : StatType
  min : Int
  max : Int
deriving DecidableEq, Repr

/-- Unique item template (config.rs, UniqueConfig). -/
structure UniqueConfig where
  id : String
  name : String
  baseType : String
  flavor : Option String
  mods : List UniqueModConfig
deriving DecidableEq, Repr

/-- Value mapping mode of a unique recipe (config.rs, MappingMode). -/
inductive MappingMode
  | percentage
  | direct
  | random
deriving DecidableEq, Repr

/-- Required affix of a unique recipe (config.rs, RecipeAffixRequirement). -/
structure RecipeAffixRequirement where
  stat : StatType
  affixType : Option AffixType
  minTier : Nat
  maxTier : Nat
deriving DecidableEq, Repr

/-- Value mapping of a unique recipe (config.rs, RecipeMapping). -/
structure RecipeMapping where
  fromStat : StatType
  toModIndex : Nat
  mode : MappingMode
  influence : FloatVal
deriving DecidableEq, Repr

/-- Unique transformation recipe (config.rs, UniqueRecipeConfig). -/
structure UniqueRecipeConfig where
  uniqueId : String
  baseType : String
  weight : Nat
  requiredAffixes : List RecipeAffixRequirement
  mappings : List RecipeMapping
deriving DecidableEq, Repr

/-- Complete game configuration (config.rs, Config).  Each keyed table is a
list of entries; lookup is by the entry's id (the loader inserts each entry
under its own id), and list order models the hash map's iteration order. -/
structure Config where
  baseTypes : List BaseTypeConfig
  affixes : List AffixConfig
  affixPools : List AffixPoolConfig
  currencies : List CurrencyConfig
  uniques : List UniqueConfig
  uniqueRecipes : List UniqueRecipeConfig
deriving DecidableEq, Repr

/-- Table lookup modelling `config.base_types.get(id)`. -/
def Config.getBase (g : Config) (id : String) : Option BaseTypeConfig :=
  g.baseTypes.find? (·.id == id)

/-- Table lookup modelling `config.affixes.get(id)`. -/
def Config.getAffix (g : Config) (id : String) : Option AffixConfig :=
  g.affixes.find? (·.id == id)

/-- Table lookup modelling `config.affix_pools.get(id)`. -/
def Config.getPool (g : Config) (id : String) : Option AffixPoolConfig :=
  g.affixPools.find? (·.id == id)

/-- Table lookup modelling `config.currencies.get(id)`. -/
def Config.getCurrency (g : Config) (id : String) : Option CurrencyConfig :=
  g.currencies.find? (·.id == id)

/-- Table lookup modelling `config.uniques.get(id)`. -/
def Config.getUnique (g : Config) (id : String) : Option UniqueConfig :=
  g.uniques.find? (·.id == id)

/-- An operation recorded in an item's history (storage.rs, Operation). -/
inductive Operation
  | currency (id : String)
deriving DecidableEq, Repr

/-- A rolled modifier instance (item.rs, Modifier). -/
structure Modifier where
  affixId : String
  name : String
  stat : StatType
  scope : AffixScope
  tier : Nat
  value : Int
  valueMax : Option Int
  tierMin : Int
  tierMax : Int
  tierMaxValue : Option (Int × Int)
deriving DecidableEq, Repr

/-- Defense values on an item (item.rs, Defenses). -/
structure Defenses where
  armour : Option Int
  evasion : Option Int
  energyShield : Option Int
deriving DecidableEq, Repr

/-- One realized damage entry (item.rs, DamageValue). -/
structure DamageValue where
  damageType : DamageType
  min : Int
  max : Int
deriving DecidableEq, Repr

/-- Realized weapon damage (item.rs, WeaponDamage). -/
structure WeaponDamage where
  damages : List DamageValue
  attackSpeed : FloatVal
  criticalChance : FloatVal
  spellEfficiency : FloatVal
deriving DecidableEq, Repr

/-- A fully realized item (item.rs, Item). -/
structure Item where
  seed : Nat
  operations : List Operation
  baseTypeId : String
  name : String
  baseName : String
  itemClass : ItemClass
  rarity : Rarity
  tags : List Tag
  requirements : Requirements
  implicit : Option Modifier
  prefixes : List Modifier
  suffixes : List Modifier
  defenses : Defenses
  damage : Option WeaponDamage
deriving DecidableEq, Repr

/-- Modelling of `Item::can_add_prefix`. -/
def Item.canAddPrefixSlot (it : Item) : Bool :=
  it.prefixes.length < it.rarity.maxPrefixes

/-- Modelling of `Item::can_add_suffix`. -/
def Item.canAddSuffixSlot (it : Item) : Bool :=
  it.suffixes.length < it.rarity.maxSuffixes

/-- Construction of a fresh normal item (item.rs, Item::new_normal). -/
def newNormalItem (base : BaseTypeConfig) (seed : Nat) : Item :=
  { seed := seed
    operations := []
    baseTypeId := base.id
    name := base.name
    baseName := base.name
    itemClass := base.itemClass
    rarity := .normal
    tags := base.tags
    requirements := base.requirements
    implicit := none
    prefixes := []
    suffixes := []
    defenses :=
      match base.defenses with
      | some d => { armour := d.armour.map (·.min)
                    evasion := d.evasion.map (·.min)
                    energyShield := d.energyShield.map (·.min) }
      | none => { armour := none, evasion := none, energyShield := none }
    damage :=
      base.damage.map fun d =>
        { damages := d.damages.map fun e =>
            { damageType := e.damageType, min := e.min, max := e.max }
          attackSpeed := d.attackSpeed
          criticalChance := d.criticalChance
          spellEfficiency := d.spellEfficiency } }

/-- Modifier built from an affix and a rolled tier (item.rs,
Modifier::from_affix). -/
def Modifier.fromAffix (affix : AffixConfig) (tier : AffixTierConfig)
    (value : Int) (valueMax : Option Int) : Modifier :=
  { affixId := affix.id
    name := affix.name
    stat := affix.stat
    scope := affix.scope
    tier := tier.tier
    value := value
    valueMax := valueMax
    tierMin := tier.min
    tierMax := tier.max
    tierMaxValue := tier.maxValue.map fun r => (r.min, r.max) }

/-- Deterministic RNG state: the seed and the number of 32-bit words already
drawn from the stream.  It models a `ChaCha8Rng` seeded by
`seed_from_u64(seed)` positioned after `pos` primitive draws. -/
structure Rng where
  seed : Nat
  pos : Nat
deriving DecidableEq, Repr

/-- Fixed deterministic word stream standing for the ChaCha8 output stream
(the concrete generator lives in the external rand_chacha crate; every
property proved here depends only on determinism, not on the words). -/
def rngWord (seed pos : Nat) : Nat :=
  (seed * 1103515245 + pos * 2654435761 + 1013904223) % 4294967296

/-- Draw one 32-bit word, as `rng.gen::<u32>()`. -/
def Rng.next (r : Rng) : Nat × Rng :=
  (rngWord r.seed r.pos, ⟨r.seed, r.pos + 1⟩)

/-- Advance the state by `n` raw `gen::<u32>()` draws. -/
def Rng.advance (r : Rng) (n : Nat) : Rng := ⟨r.seed, r.pos + n⟩

/-- Model of `rng.gen_range(0..n)` on unsigned integers (callers guarantee
`n > 0`; Rust panics on an empty range). -/
def genRangeNatLt (n : Nat) (r : Rng) : Nat × Rng :=
  let (w, r') := r.next
  (w % n, r')

/-- Model of `rng.gen_range(lo..=hi)` on unsigned integers (callers
guarantee `lo ≤ hi`). -/
def genRangeNatIncl (lo hi : Nat) (r : Rng) : Nat × Rng :=
  let (w, r') := r.next
  (lo + w % (hi - lo + 1), r')

/-- Model of `rng.gen_range(lo..=hi)` on signed integers (callers guarantee
`lo ≤ hi`). -/
def genRangeInt (lo hi : Int) (r : Rng) : Int × Rng :=
  let (w, r') := r.next
  (lo + (w % ((hi - lo + 1).toNat) : Nat), r')

/-- Model of `rng.gen_bool(0.5)`: one draw, true on an odd word. -/
def genBoolHalf (r : Rng) : Bool × Rng :=
  let (w, r') := r.next
  (w % 2 == 1, r')

/-- Rolled implicit modifier of a base, consuming one draw when the base has
an implicit (generator.rs lines 35-49, also replay lines 169-183). -/
def rollImplicitCfg (base : BaseTypeConfig) (rng : Rng) :
    Option Modifier × Rng :=
  match base.implicit with
  | none => (none, rng)
  | some cfg =>
    let (v, rng') := genRangeInt cfg.min cfg.max rng
    (some { affixId := "implicit"
            name := "Implicit"
            stat := cfg.stat
            scope := .localScope
            tier := 0
            value := v
            valueMax := none
            tierMin := cfg.min
            tierMax := cfg.max
            tierMaxValue := none }, rng')

/-- Rolled base defenses, one draw per present defense, in the fixed order
armour, evasion, energy shield (generator.rs lines 52-62). -/
def rollDefensesCfg (base : BaseTypeConfig) (d0 : Defenses) (rng : Rng) :
    Defenses × Rng :=
  match base.defenses with
  | none => (d0, rng)
  | some cfg =>
    let (a, rng1) :=
      match cfg.armour with
      | some range =>
        let (v, r) := genRangeInt range.min range.max rng
        (some v, r)
      | none => (d0.armour, rng)
    let (e, rng2) :=
      match cfg.evasion with
      | some range =>
        let (v, r) := genRangeInt range.min range.max rng1
        (some v, r)
      | none => (d0.evasion, rng1)
    let (s, rng3) :=
      match cfg.energyShield with
      | some range =>
        let (v, r) := genRangeInt range.min range.max rng2
        (some v, r)
      | none => (d0.energyShield, rng2)
    ({ armour := a, evasion := e, energyShield := s }, rng3)

/-- Fresh normal item with rolled implicit and defenses: the body shared by
`Generator::generate` and the re-roll section of `Generator::replay_rng`. -/
def rollBaseItem (base : BaseTypeConfig) (seed : Nat) (rng : Rng) :
    Item × Rng :=
  let it := newNormalItem base seed
  let (imp, rng1) := rollImplicitCfg base rng
  let (defs, rng2) := rollDefensesCfg base it.defenses rng1
  ({ it with implicit := imp, defenses := defs }, rng2)

/-- Number of raw `gen::<u32>()` draws `Generator::replay_rng` uses to skip
the initial generation section (generator.rs lines 146-161). -/
def countInitDraws (base : BaseTypeConfig) : Nat :=
  (if base.implicit.isSome then 1 else 0) +
    match base.defenses with
    | some d =>
      (if d.armour.isSome then 1 else 0) +
        (if d.evasion.isSome then 1 else 0) +
        (if d.energyShield.isSome then 1 else 0)
    | none => 0

/-- Modelling of `Generator::generate`: build a normal item from a base type
with a fresh RNG seeded from `seed` (generator.rs lines 29-65). -/
def generate (g : Config) (baseTypeId : String) (seed : Nat) : Option Item :=
  (g.getBase baseTypeId).map fun base =>
    (rollBaseItem base seed ⟨seed, 0⟩).1

/-- Affixes valid for an item class and kind, in table iteration order
(generator.rs, Generator::get_valid_affixes). -/
def Config.getValidAffixes (g : Config) (cls : ItemClass)
    (ty : AffixType) : List AffixConfig :=
  g.affixes.filter fun affix =>
    affix.affixType == ty &&
      (affix.allowedClasses.isEmpty || affix.allowedClasses.contains cls)

/-- Affixes valid for an item class and kind, restricted to the union of the
listed pools when `pools` is non-empty (generator.rs,
Generator::get_valid_affixes_from_pools). -/
def Config.getValidAffixesFromPools (g : Config) (cls : ItemClass)
    (ty : AffixType) (pools : List String) : List AffixConfig :=
  if pools.isEmpty then g.getValidAffixes cls ty
  else
    let allowedIds :=
      (pools.filterMap g.getPool).foldl (fun acc p => acc ++ p.affixes) []
    g.affixes.filter fun affix =>
      affix.affixType == ty &&
        (affix.allowedClasses.isEmpty || affix.allowedClasses.contains cls) &&
        allowedIds.contains affix.id

/-- Spawn weight of an affix against the item's tags (generator.rs,
Generator::calculate_weight).  The source computes
`(sum_of_tier_weights as f32 * (1.0 + 0.5 * matching_tags)) as u32`; for the
integer weights in play this is exactly `weight * (2 + matching) / 2`
truncated, embedded here over `Nat`. -/
def calculateWeight (affix : AffixConfig) (itemTags : List Tag) : Nat :=
  let baseWeight := (affix.tiers.map (·.weight)).sum
  let matchingTags := (affix.tags.filter (itemTags.contains ·)).length
  baseWeight * (2 + matchingTags) / 2

/-- Tag gate on a candidate affix (generator.rs, Generator::has_matching_tag). -/
def hasMatchingTag (affix : AffixConfig) (itemTags : List Tag) : Bool :=
  affix.tags.isEmpty || affix.tags.any (itemTags.contains ·)

/-- The weighted-selection loop the source writes inline: walk the list in
order, subtracting each entry's weight from the roll until the roll is
smaller than the entry's weight (generator.rs lines 326-332 and again for
tiers, currency.rs for candidates and recipes). -/
def pickWeightedBy {α : Type} (f : α → Nat) : List α → Nat → Option α
  | [], _ => none
  | a :: rest, roll => if roll < f a then some a else pickWeightedBy f rest (roll - f a)

/-- Modelling of `Generator::roll_affix_from_pools` (generator.rs lines
293-368): filter candidates, pick an affix by weight, pick an eligible tier
by weight, roll the value and the optional second value. -/
def rollAffixFromPools (g : Config) (cls : ItemClass) (itemTags : List Tag)
    (ty : AffixType) (existingAffixIds : List String) (pools : List String)
    (itemLevel : Nat) (rng : Rng) : Option Modifier × Rng :=
  let validAffixes :=
    ((g.getValidAffixesFromPools cls ty pools).filter
        (fun a => !existingAffixIds.contains a.id)).filter
      (fun a => hasMatchingTag a itemTags)
  if validAffixes.isEmpty then (none, rng)
  else
    let totalWeight := (validAffixes.map (calculateWeight · itemTags)).sum
    if totalWeight == 0 then (none, rng)
    else
      let (roll, rng1) := genRangeNatLt totalWeight rng
      match pickWeightedBy (calculateWeight · itemTags) validAffixes roll with
      | none => (none, rng1)
      | some affix =>
        let eligibleTiers := affix.tiers.filter (·.minIlvl ≤ itemLevel)
        if eligibleTiers.isEmpty then (none, rng1)
        else
          let tierTotal := (eligibleTiers.map (·.weight)).sum
          if tierTotal == 0 then (none, rng1)
          else
            let (tierRoll, rng2) := genRangeNatLt tierTotal rng1
            match pickWeightedBy (·.weight) eligibleTiers tierRoll with
            | none => (none, rng2)
            | some tier =>
              let (value, rng3) := genRangeInt tier.min tier.max rng2
              let (valueMax, rng4) :=
                match tier.maxValue with
                | some range =>
                  let (v, r) := genRangeInt range.min range.max rng3
                  (some v, r)
                | none => (none, rng3)
              (some (Modifier.fromAffix affix tier value valueMax), rng4)

/-- Modelling of `Generator::roll_affix`: the pools-filtered roll with an
empty pool list (generator.rs lines 265-283). -/
def rollAffix (g : Config) (cls : ItemClass) (itemTags : List Tag)
    (ty : AffixType) (existingAffixIds : List String) (itemLevel : Nat)
    (rng : Rng) : Option Modifier × Rng :=
  rollAffixFromPools g cls itemTags ty existingAffixIds [] itemLevel rng

/-- First word table of `Generator::generate_rare_name`. -/
def rareNameTableA : List String :=
  ["Doom", "Wrath", "Storm", "Dread", "Soul", "Death", "Blood", "Shadow",
   "Grim", "Hate", "Plague", "Blight", "Rune", "Spirit", "Mind", "Skull",
   "Bone", "Venom", "Foe", "Pain"]

/-- Second word table of `Generator::generate_rare_name`. -/
def rareNameTableB : List String :=
  ["Bane", "Edge", "Fang", "Bite", "Roar", "Song", "Call", "Cry", "Grasp",
   "Touch", "Strike", "Blow", "Mark", "Brand", "Scar", "Ward", "Guard",
   "Veil", "Shroud", "Mantle"]

/-- Modelling of `Generator::generate_rare_name`: two index draws into the
fixed word tables (generator.rs lines 460-475). -/
def generateRareName (rng : Rng) : String × Rng :=
  let (i, rng1) := genRangeNatLt rareNameTableA.length rng
  let (j, rng2) := genRangeNatLt rareNameTableB.length rng1
  (rareNameTableA.getD i "" ++ " " ++ rareNameTableB.getD j "", rng2)

/-- Rolled modifiers of a unique's mod list, one value draw per mod, each
realized with affix id `unique_<unique_id>`, global scope and tier 0
(generator.rs lines 538-553). -/
def rollUniqueMods (uniqueId : String) (u : UniqueConfig) :
    List UniqueModConfig → Rng → List Modifier × Rng
  | [], rng => ([], rng)
  | mc :: rest, rng =>
    let (value, rng1) := genRangeInt mc.min mc.max rng
    let m : Modifier :=
      { affixId := "unique_" ++ uniqueId
        name := u.name
        stat := mc.stat
        scope := .globalScope
        tier := 0
        value := value
        valueMax := none
        tierMin := mc.min
        tierMax := mc.max
        tierMaxValue := none }
    let (ms, rng2) := rollUniqueMods uniqueId u rest rng1
    (m :: ms, rng2)

/-- Modelling of `Generator::generate_unique` (generator.rs lines 498-556). -/
def generateUnique (g : Config) (uniqueId : String) (seed : Nat) :
    Option Item :=
  match g.getUnique uniqueId with
  | none => none
  | some u =>
    match g.getBase u.baseType with
    | none => none
    | some base =>
      let (it0, rng1) := rollBaseItem base seed ⟨seed, 0⟩
      let it1 := { it0 with rarity := Rarity.unique, name := u.name }
      let (mods, _) := rollUniqueMods uniqueId u u.mods rng1
      some { it1 with prefixes := mods }

/-- The item fields the currency pipeline reads but never writes. -/
structure CraftCtx where
  baseTypeId : String
  baseName : String
  itemClass : ItemClass
  tags : List Tag
  requirements : Requirements
deriving DecidableEq, Repr

/-- The item fields the currency pipeline mutates. -/
structure CraftState where
  name : String
  rarity : Rarity
  prefixes : List Modifier
  suffixes : List Modifier
deriving DecidableEq, Repr

/-- Read-only view of an item for the currency pipeline. -/
def Item.ctx (it : Item) : CraftCtx :=
  { baseTypeId := it.baseTypeId
    baseName := it.baseName
    itemClass := it.itemClass
    tags := it.tags
    requirements := it.requirements }

/-- Mutable view of an item for the currency pipeline. -/
def Item.craft (it : Item) : CraftState :=
  { name := it.name
    rarity := it.rarity
    prefixes := it.prefixes
    suffixes := it.suffixes }

/-- Write the pipeline's mutable fields back into the item. -/
def Item.withCraft (it : Item) (s : CraftState) : Item :=
  { it with name := s.name, rarity := s.rarity, prefixes := s.prefixes,
            suffixes := s.suffixes }

/-- Slot check against the state's own rarity (item.rs, Item::can_add_prefix). -/
def CraftState.canAddPrefixSlot (s : CraftState) : Bool :=
  s.prefixes.length < s.rarity.maxPrefixes

/-- Slot check against the state's own rarity (item.rs, Item::can_add_suffix). -/
def CraftState.canAddSuffixSlot (s : CraftState) : Bool :=
  s.suffixes.length < s.rarity.maxSuffixes

/-- Ids of all modifiers currently on the item, prefixes then suffixes, as
the source collects them before a roll. -/
def CraftState.existingIds (s : CraftState) : List String :=
  (s.prefixes ++ s.suffixes).map (·.affixId)

/-- Currency error taxonomy (currency.rs, CurrencyError). -/
inductive CurrencyError
  | invalidRarity (expected : List Rarity) (got : Rarity)
  | noAffixSlots
  | noAffixesToRemove
  | noValidAffixes
  | noMatchingRecipe
  | affixNotFound (id : String)
  | affixAlreadyPresent (id : String)
  | affixNotAllowed (id : String)
  | tierNotFound (affixId : String) (tier : Nat)
  | noAffixPoolsSpecified
  | unknownCurrency (id : String)
deriving DecidableEq, Repr

/-- Addability pre-check for specific affixes (currency.rs,
can_add_any_specific_affix): pure, no RNG. -/
def canAddAnySpecificAffix (g : Config) (ctx : CraftCtx) (s : CraftState)
    (candidates : List SpecificAffix) (targetRarity : Rarity)
    (willClearAffixes : Bool) : Bool :=
  let existing : List String := if willClearAffixes then [] else s.existingIds
  let prefixCount := if willClearAffixes then 0 else s.prefixes.length
  let suffixCount := if willClearAffixes then 0 else s.suffixes.length
  let canAddP := prefixCount < targetRarity.maxPrefixes
  let canAddS := suffixCount < targetRarity.maxSuffixes
  candidates.any fun c =>
    match g.getAffix c.id with
    | none => false
    | some affix =>
      if existing.contains c.id then false
      else if !affix.allowedClasses.isEmpty &&
          !affix.allowedClasses.contains ctx.itemClass then false
      else
        match affix.affixType with
        | .pre => canAddP
        | .suf => canAddS

/-- Requirements gate of a currency (currency.rs, check_requirements),
returning the first failing check's error. -/
def checkRequirements (g : Config) (ctx : CraftCtx) (s : CraftState)
    (cur : CurrencyConfig) : Option CurrencyError :=
  let reqs := cur.requires
  let effects := cur.effects
  if !reqs.rarities.isEmpty && !reqs.rarities.contains s.rarity then
    some (.invalidRarity reqs.rarities s.rarity)
  else if reqs.hasAffix && s.prefixes.isEmpty && s.suffixes.isEmpty then
    some .noAffixesToRemove
  else
    let slotFail :=
      if reqs.hasAffixSlot then
        let targetRarity := effects.setRarity.getD s.rarity
        let prefixCount := if effects.clearAffixes then 0 else s.prefixes.length
        let suffixCount := if effects.clearAffixes then 0 else s.suffixes.length
        !(prefixCount < targetRarity.maxPrefixes) &&
          !(suffixCount < targetRarity.maxSuffixes)
      else false
    if slotFail then some .noAffixSlots
    else if !effects.addSpecificAffix.isEmpty &&
        !canAddAnySpecificAffix g ctx s effects.addSpecificAffix
          (effects.setRarity.getD s.rarity) effects.clearAffixes then
      some .noValidAffixes
    else if (effects.addAffixes.isSome || effects.rerollAffixes.isSome) &&
        effects.affixPools.isEmpty then
      some .noAffixPoolsSpecified
    else none

/-- Append a modifier to the list of its kind. -/
def CraftState.pushMod (s : CraftState) (ty : AffixType) (m : Modifier) :
    CraftState :=
  match ty with
  | .pre => { s with prefixes := s.prefixes ++ [m] }
  | .suf => { s with suffixes := s.suffixes ++ [m] }

/-- Stage 1 of the pipeline, `set_rarity` (currency.rs lines 24-29): assign
the target rarity; when the new rarity is rare and the display name still
equals the base name, draw a fresh rare name. -/
def stageSetRarity (ctx : CraftCtx) (effects : CurrencyEffects)
    (s : CraftState) (rng : Rng) : CraftState × Rng :=
  match effects.setRarity with
  | none => (s, rng)
  | some newRarity =>
    let s1 := { s with rarity := newRarity }
    if newRarity == .rare && s1.name == ctx.baseName then
      let (nm, rng') := generateRareName rng
      ({ s1 with name := nm }, rng')
    else (s1, rng)

/-- Stage 2, `clear_affixes` (currency.rs lines 32-39): empty both lists and
restore the base name when the current rarity is normal. -/
def stageClear (ctx : CraftCtx) (effects : CurrencyEffects)
    (s : CraftState) : CraftState :=
  if effects.clearAffixes then
    let s1 := { s with prefixes := [], suffixes := [] }
    if s1.rarity == .normal then { s1 with name := ctx.baseName } else s1
  else s

/-- One removal of a random affix (currency.rs, remove_random_affix). -/
def removeRandomAffix (s : CraftState) (rng : Rng) :
    Option CurrencyError × CraftState × Rng :=
  let totalAffixes := s.prefixes.length + s.suffixes.length
  if totalAffixes == 0 then (some .noAffixesToRemove, s, rng)
  else
    let (idx, rng1) := genRangeNatLt totalAffixes rng
    if idx < s.prefixes.length then
      (none, { s with prefixes := s.prefixes.eraseIdx idx }, rng1)
    else
      (none, { s with suffixes := s.suffixes.eraseIdx (idx - s.prefixes.length) }, rng1)

/-- Stage 3 loop, `remove_affixes(n)` (currency.rs lines 42-46): the error of
an iteration aborts the remaining iterations, keeping the state so far. -/
def removeLoop : Nat → CraftState → Rng → Option CurrencyError × CraftState × Rng
  | 0, s, rng => (none, s, rng)
  | n + 1, s, rng =>
    match removeRandomAffix s rng with
    | (some e, s', rng') => (some e, s', rng')
    | (none, s', rng') => removeLoop n s' rng'

/-- One reroll of a random affix (currency.rs, reroll_random_affix): remove
a random modifier, then roll a replacement of the same kind from the
currency's pools; a failed replacement leaves the slot empty. -/
def rerollRandomAffix (g : Config) (ctx : CraftCtx) (pools : List String)
    (s : CraftState) (rng : Rng) : Option CurrencyError × CraftState × Rng :=
  let prefixCount := s.prefixes.length
  let suffixCount := s.suffixes.length
  let totalAffixes := prefixCount + suffixCount
  if totalAffixes == 0 then (some .noAffixesToRemove, s, rng)
  else
    let (idx, rng1) := genRangeNatLt totalAffixes rng
    let itemLevel := ctx.requirements.level
    if idx < prefixCount then
      let s1 := { s with prefixes := s.prefixes.eraseIdx idx }
      let (m?, rng2) := rollAffixFromPools g ctx.itemClass ctx.tags .pre
        s1.existingIds pools itemLevel rng1
      match m? with
      | some m => (none, { s1 with prefixes := s1.prefixes ++ [m] }, rng2)
      | none => (none, s1, rng2)
    else
      let s1 := { s with suffixes := s.suffixes.eraseIdx (idx - prefixCount) }
      let (m?, rng2) := rollAffixFromPools g ctx.itemClass ctx.tags .suf
        s1.existingIds pools itemLevel rng1
      match m? with
      | some m => (none, { s1 with suffixes := s1.suffixes ++ [m] }, rng2)
      | none => (none, s1, rng2)

/-- Stage 4 loop, `reroll_affixes(n)` (currency.rs lines 49-53). -/
def rerollLoop (g : Config) (ctx : CraftCtx) (pools : List String) :
    Nat → CraftState → Rng → Option CurrencyError × CraftState × Rng
  | 0, s, rng => (none, s, rng)
  | n + 1, s, rng =>
    match rerollRandomAffix g ctx pools s rng with
    | (some e, s', rng') => (some e, s', rng')
    | (none, s', rng') => rerollLoop g ctx pools n s' rng'

/-- Which kind to try for a random add: a coin when both slots are open,
else the only open kind (currency.rs lines 279-290, also the same match in
make_magic and make_rare). -/
def chooseAffixType (canP canS : Bool) (rng : Rng) :
    Option AffixType × Rng :=
  match canP, canS with
  | true, true =>
    let (b, rng') := genBoolHalf rng
    (some (if b then .pre else .suf), rng')
  | true, false => (some .pre, rng)
  | false, true => (some .suf, rng)
  | false, false => (none, rng)

/-- One random-affix addition (currency.rs, add_random_affix): pick a kind,
roll from the pools, and on failure try the opposite kind once. -/
def addRandomAffix (g : Config) (ctx : CraftCtx) (pools : List String)
    (s : CraftState) (rng : Rng) : Bool × CraftState × Rng :=
  let existing := s.existingIds
  let canP := s.canAddPrefixSlot
  let canS := s.canAddSuffixSlot
  if !canP && !canS then (false, s, rng)
  else
    let (ty?, rng1) := chooseAffixType canP canS rng
    match ty? with
    | none => (false, s, rng1)
    | some ty =>
      let itemLevel := ctx.requirements.level
      let (m?, rng2) :=
        rollAffixFromPools g ctx.itemClass ctx.tags ty existing pools itemLevel rng1
      match m? with
      | some m => (true, s.pushMod ty m, rng2)
      | none =>
        let otherTy := ty.other
        let canOther := match otherTy with | .pre => canP | .suf => canS
        if canOther then
          let (m2?, rng3) := rollAffixFromPools g ctx.itemClass ctx.tags otherTy
            existing pools itemLevel rng2
          match m2? with
          | some m => (true, s.pushMod otherTy m, rng3)
          | none => (false, s, rng3)
        else (false, s, rng2)

/-- Stage 5 loop body, repeated `count` times, breaking on the first failed
addition (currency.rs lines 63-67). -/
def addLoop (g : Config) (ctx : CraftCtx) (pools : List String) :
    Nat → CraftState → Rng → CraftState × Rng
  | 0, s, rng => (s, rng)
  | n + 1, s, rng =>
    match addRandomAffix g ctx pools s rng with
    | (false, s', rng') => (s', rng')
    | (true, s', rng') => addLoop g ctx pools n s' rng'

/-- Stage 5, `add_affixes{min,max}` (currency.rs lines 56-68): the target
count is drawn only when the bounds differ. -/
def stageAddAffixes (g : Config) (ctx : CraftCtx) (effects : CurrencyEffects)
    (s : CraftState) (rng : Rng) : CraftState × Rng :=
  match effects.addAffixes with
  | none => (s, rng)
  | some affixCount =>
    let (count, rng1) :=
      if affixCount.min == affixCount.max then (affixCount.min, rng)
      else genRangeNatIncl affixCount.min affixCount.max rng
    addLoop g ctx effects.affixPools count s rng1

/-- Addition of one specific affix by id (currency.rs, add_affix_by_id): an
explicit tier is used verbatim, otherwise a tier is drawn by weight among
the tiers the item level allows. -/
def addAffixById (g : Config) (ctx : CraftCtx) (s : CraftState)
    (affixId : String) (tier : Option Nat) (rng : Rng) :
    Option CurrencyError × CraftState × Rng :=
  match g.getAffix affixId with
  | none => (some (.affixNotFound affixId), s, rng)
  | some affix =>
    let itemLevel := ctx.requirements.level
    let pickedTier : Sum CurrencyError (AffixTierConfig × Rng) :=
      match tier with
      | some specificTier =>
        match affix.tiers.find? (·.tier == specificTier) with
        | none => Sum.inl (CurrencyError.tierNotFound affixId specificTier)
        | some tierCfg => Sum.inr (tierCfg, rng)
      | none =>
        let eligibleTiers := affix.tiers.filter (·.minIlvl ≤ itemLevel)
        if eligibleTiers.isEmpty then Sum.inl CurrencyError.noValidAffixes
        else
          let totalWeight := (eligibleTiers.map (·.weight)).sum
          if totalWeight == 0 then Sum.inl CurrencyError.noValidAffixes
          else
            let (roll, rng1) := genRangeNatLt totalWeight rng
            match pickWeightedBy (·.weight) eligibleTiers roll with
            | none => Sum.inl CurrencyError.noValidAffixes
            | some tierCfg => Sum.inr (tierCfg, rng1)
    match pickedTier with
    | Sum.inl e => (some e, s, rng)
    | Sum.inr (selectedTier, rng2) =>
      let (value, rng3) := genRangeInt selectedTier.min selectedTier.max rng2
      let (valueMax, rng4) :=
        match selectedTier.maxValue with
        | some range =>
          let (v, r) := genRangeInt range.min range.max rng3
          (some v, r)
        | none => (none, rng3)
      let m : Modifier :=
        { affixId := affix.id
          name := affix.name
          stat := affix.stat
          scope := affix.scope
          tier := selectedTier.tier
          value := value
          valueMax := valueMax
          tierMin := selectedTier.min
          tierMax := selectedTier.max
          tierMaxValue := selectedTier.maxValue.map fun r => (r.min, r.max) }
      (none, s.pushMod affix.affixType m, rng4)

/-- The per-candidate validity filter of `add_specific_affix_from_set`
(currency.rs lines 344-368). -/
def specificCandidateOk (g : Config) (ctx : CraftCtx) (s : CraftState)
    (existing : List String) (c : SpecificAffix) : Bool :=
  match g.getAffix c.id with
  | none => false
  | some affix =>
    if existing.contains c.id then false
    else if !affix.allowedClasses.isEmpty &&
        !affix.allowedClasses.contains ctx.itemClass then false
    else
      match affix.affixType with
      | .pre => s.canAddPrefixSlot
      | .suf => s.canAddSuffixSlot

/-- Stage 6, `add_specific_affix` (currency.rs, add_specific_affix_from_set):
filter the candidates, choose one by weight (the first when the total weight
is zero or only one remains), then add it by id. -/
def addSpecificAffixFromSet (g : Config) (ctx : CraftCtx) (s : CraftState)
    (candidates : List SpecificAffix) (rng : Rng) :
    Option CurrencyError × CraftState × Rng :=
  let existing := s.existingIds
  let validCandidates := candidates.filter (specificCandidateOk g ctx s existing)
  match validCandidates with
  | [] => (some .noValidAffixes, s, rng)
  | c0 :: rest =>
    let totalWeight := ((c0 :: rest).map (·.weight)).sum
    let (selected, rng1) :=
      if totalWeight == 0 || rest.isEmpty then (c0, rng)
      else
        let (roll, rng') := genRangeNatLt totalWeight rng
        ((pickWeightedBy (·.weight) (c0 :: rest) roll).getD c0, rng')
    addAffixById g ctx s selected.id selected.tier rng1

/-- Match of one recipe affix requirement against the item (currency.rs,
affix_requirement_met). -/
def affixRequirementMet (req : RecipeAffixRequirement) (s : CraftState) : Bool :=
  (s.prefixes.any fun m =>
    m.stat == req.stat && req.minTier ≤ m.tier && m.tier ≤ req.maxTier &&
      (req.affixType.isNone || req.affixType == some .pre)) ||
  (s.suffixes.any fun m =>
    m.stat == req.stat && req.minTier ≤ m.tier && m.tier ≤ req.maxTier &&
      (req.affixType.isNone || req.affixType == some .suf))

/-- Match of a whole recipe against the item (currency.rs, recipe_matches). -/
def recipeMatches (recipe : UniqueRecipeConfig) (ctx : CraftCtx)
    (s : CraftState) : Bool :=
  recipe.baseType == ctx.baseTypeId &&
    recipe.requiredAffixes.all (affixRequirementMet · s)

/-- Insertion into the stat snapshot, the last write winning, as the
source's `HashMap::insert` over the iteration prefixes-then-suffixes. -/
def snapInsert (snap : List (StatType × (Int × String))) (k : StatType)
    (v : Int × String) : List (StatType × (Int × String)) :=
  match snap with
  | [] => [(k, v)]
  | (k', v') :: rest => if k' == k then (k, v) :: rest else (k', v') :: snapInsert rest k v

/-- Snapshot `stat → (value, affix_id)` of all current modifiers (currency.rs
lines 610-615). -/
def buildSnapshot (mods : List Modifier) : List (StatType × (Int × String)) :=
  mods.foldl (fun acc m => snapInsert acc m.stat (m.value, m.affixId)) []

/-- Snapshot lookup, modelling `stat_values.get(&stat)`. -/
def snapLookup (snap : List (StatType × (Int × String))) (st : StatType) :
    Option (Int × String) :=
  (snap.find? (·.1 == st)).map (·.2)

/-- The mapped value of a non-random mapping (currency.rs lines 635-666):
direct mode clamps the snapshot value into the mod's range; percentage mode
maps the source affix's overall-span proportion into the mod's range, the
f32 product truncated toward zero. -/
def mappedValueOf (g : Config) (mc : UniqueModConfig) (mode : MappingMode)
    (origValue : Int) (affixId : String) : Int :=
  match mode with
  | .direct => intClamp origValue mc.min mc.max
  | _ =>
    let pct : FloatVal :=
      match g.getAffix affixId with
      | some affix =>
        let overallMax :=
          (((affix.tiers.filter (·.tier == 1)).map (·.max)).head?).getD
            (((affix.tiers.map (·.max)).max?).getD 0)
        let overallMin := ((affix.tiers.map (·.min)).min?).getD 0
        let fullRange := overallMax - overallMin
        if 0 < fullRange then
          FloatVal.clampUnit ⟨origValue - overallMin, fullRange⟩
        else ⟨1, 2⟩
      | none => ⟨1, 2⟩
    mc.min + Int.tdiv ((mc.max - mc.min) * pct.num) pct.den

/-- Value of the i-th unique mod (currency.rs lines 624-687): the freshly
drawn `randomValue` unless a mapping targets the index, in which case the
source value is mapped directly or by overall-span percentage and then
blended with `randomValue` by the clamped influence; the blend result is an
f32-to-i32 truncation (`Int.tdiv`) clamped into the mod's range. -/
def uniqueModValue (g : Config) (recipe : UniqueRecipeConfig)
    (snap : List (StatType × (Int × String))) (modIndex : Nat)
    (mc : UniqueModConfig) (randomValue : Int) : Int :=
  match recipe.mappings.find? (·.toModIndex == modIndex) with
  | none => randomValue
  | some mapping =>
    match mapping.mode with
    | .random => randomValue
    | _ =>
      match snapLookup snap mapping.fromStat with
      | none => randomValue
      | some (origValue, affixId) =>
        let mappedValue := mappedValueOf g mc mapping.mode origValue affixId
        let influence := mapping.influence.clampUnit
        if influence.den ≤ influence.num then mappedValue
        else if influence.num ≤ 0 then randomValue
        else
          intClamp
            (Int.tdiv (influence.num * mappedValue +
              (influence.den - influence.num) * randomValue) influence.den)
            mc.min mc.max

/-- Unique mods of the transformation, one value draw per mod (always drawn,
even when a mapping overrides it), appended in order (currency.rs lines
624-702). -/
def uniqueModsFromRecipe (g : Config) (recipe : UniqueRecipeConfig)
    (u : UniqueConfig) (snap : List (StatType × (Int × String))) :
    Nat → List UniqueModConfig → Rng → List Modifier × Rng
  | _, [], rng => ([], rng)
  | modIndex, mc :: rest, rng =>
    let (randomValue, rng1) := genRangeInt mc.min mc.max rng
    let value := uniqueModValue g recipe snap modIndex mc randomValue
    let m : Modifier :=
      { affixId := "unique_" ++ recipe.uniqueId
        name := u.name
        stat := mc.stat
        scope := .globalScope
        tier := 0
        value := value
        valueMax := none
        tierMin := mc.min
        tierMax := mc.max
        tierMaxValue := none }
    let (ms, rng2) := uniqueModsFromRecipe g recipe u snap (modIndex + 1) rest rng1
    (m :: ms, rng2)

/-- Stage 7, `try_unique` (currency.rs, try_unique_transformation): find the
matching recipes, choose one by weight, snapshot the stats, switch the item
to the unique and realize its mods as prefixes. -/
def tryUniqueTransformation (g : Config) (ctx : CraftCtx) (s : CraftState)
    (rng : Rng) : Option CurrencyError × CraftState × Rng :=
  let matchingRecipes := g.uniqueRecipes.filter (recipeMatches · ctx s)
  if matchingRecipes.isEmpty then (some .noMatchingRecipe, s, rng)
  else
    let totalWeight := (matchingRecipes.map (·.weight)).sum
    let (roll, rng1) := genRangeNatLt totalWeight rng
    match pickWeightedBy (·.weight) matchingRecipes roll with
    | none => (some .noMatchingRecipe, s, rng1)
    | some recipe =>
      match g.getUnique recipe.uniqueId with
      | none => (some .noMatchingRecipe, s, rng1)
      | some u =>
        let snap := buildSnapshot (s.prefixes ++ s.suffixes)
        let s1 : CraftState :=
          { name := u.name, rarity := .unique, prefixes := [], suffixes := [] }
        let (mods, rng2) := uniqueModsFromRecipe g recipe u snap 0 u.mods rng1
        (none, { s1 with prefixes := mods }, rng2)

/-- Error-propagating sequencing of pipeline stages: an error skips the rest
of the pipeline, keeping the state the failing stage left behind (the Rust
`?` operator on `&mut` state). -/
def andThenE (r : Option CurrencyError × CraftState × Rng)
    (f : CraftState → Rng → Option CurrencyError × CraftState × Rng) :
    Option CurrencyError × CraftState × Rng :=
  match r with
  | (some e, s, rng) => (some e, s, rng)
  | (none, s, rng) => f s rng

/-- The full currency application on the craft view (currency.rs,
apply_currency): the requirements gate, then the seven effect stages in
their fixed order. -/
def applyCurrencyCore (g : Config) (ctx : CraftCtx) (cur : CurrencyConfig)
    (s : CraftState) (rng : Rng) : Option CurrencyError × CraftState × Rng :=
  match checkRequirements g ctx s cur with
  | some e => (some e, s, rng)
  | none =>
    let effects := cur.effects
    let (s1, rng1) := stageSetRarity ctx effects s rng
    let s2 := stageClear ctx effects s1
    andThenE
      (match effects.removeAffixes with
       | some count => removeLoop count s2 rng1
       | none => (none, s2, rng1)) fun s3 rng3 =>
    andThenE
      (match effects.rerollAffixes with
       | some count => rerollLoop g ctx effects.affixPools count s3 rng3
       | none => (none, s3, rng3)) fun s4 rng4 =>
    (let (s5, rng5) := stageAddAffixes g ctx effects s4 rng4
     andThenE
       (if !effects.addSpecificAffix.isEmpty then
          addSpecificAffixFromSet g ctx s5 effects.addSpecificAffix rng5
        else (none, s5, rng5)) fun s6 rng6 =>
     if effects.tryUnique then tryUniqueTransformation g ctx s6 rng6
     else (none, s6, rng6))

/-- Modelling of the free function `apply_currency(generator, item, currency,
rng)`: the pipeline run on the item's craft view, with the final (possibly
partially mutated) item returned alongside the optional error, as the Rust
caller observes the `&mut Item`. -/
def applyCurrency (g : Config) (it : Item) (cur : CurrencyConfig)
    (rng : Rng) : Option CurrencyError × Item × Rng :=
  let (e, s, rng') := applyCurrencyCore g it.ctx cur it.craft rng
  (e, it.withCraft s, rng')

/-- Modelling of `Generator::can_apply_currency` (generator.rs lines
92-115). -/
def canApplyCurrency (g : Config) (it : Item) (currencyId : String) : Bool :=
  match g.getCurrency currencyId with
  | none => false
  | some currency =>
    let reqs := currency.requires
    if !reqs.rarities.isEmpty && !reqs.rarities.contains it.rarity then false
    else if reqs.hasAffix && it.prefixes.isEmpty && it.suffixes.isEmpty then false
    else if reqs.hasAffixSlot && !it.canAddPrefixSlot && !it.canAddSuffixSlot then false
    else true

/-- Replay of a list of operations against an item with a live RNG, unknown
currency ids skipped and currency errors ignored, the partially mutated
state kept (the loop bodies of `Generator::reconstruct` and
`Generator::replay_rng`). -/
def applyOps (g : Config) : Item → Rng → List Operation → Item × Rng
  | it, rng, [] => (it, rng)
  | it, rng, .currency currencyId :: rest =>
    match g.getCurrency currencyId with
    | none => applyOps g it rng rest
    | some cur =>
      let (_, it', rng') := applyCurrency g it cur rng
      applyOps g it' rng' rest

/-- Modelling of `Generator::replay_rng` (generator.rs lines 141-208):
advance a fresh RNG past the initial generation with raw `gen::<u32>()`
draws, re-roll the initial values onto a scratch copy of the base item, then
replay every logged operation against that scratch item. -/
def replayRng (g : Config) (it : Item) : Rng :=
  match g.getBase it.baseTypeId with
  | none => ⟨it.seed, 0⟩
  | some base =>
    let rng0 := Rng.advance ⟨it.seed, 0⟩ (countInitDraws base)
    let (replayItem, rng1) := rollBaseItem base it.seed rng0
    (applyOps g replayItem rng1 it.operations).2

/-- Modelling of `Generator::reconstruct` (generator.rs lines 118-138). -/
def reconstruct (g : Config) (baseTypeId : String) (seed : Nat)
    (operations : List Operation) : Option Item :=
  (generate g baseTypeId seed).map fun it0 =>
    let rng := replayRng g it0
    let (it1, _) := applyOps g it0 rng operations
    { it1 with operations := operations }

/-- Modelling of the pure `Generator::apply_currency` (generator.rs lines
71-89): look the currency up, replay the RNG past the item's history, apply
the currency to a clone, and commit (recording the operation) only on
success. -/
def applyCurrencyPure (g : Config) (it : Item) (currencyId : String) :
    Except CurrencyError Item :=
  match g.getCurrency currencyId with
  | none => .error (.unknownCurrency currencyId)
  | some cur =>
    let rng := replayRng g it
    let r := applyCurrency g it cur rng
    match r.1 with
    | some err => .error err
    | none =>
      .ok { r.2.1 with operations := r.2.1.operations ++ [.currency currencyId] }

/-- Sequential application of currencies through the pure form, stopping at
the first error. -/
def applyChain (g : Config) : Item → List String → Except CurrencyError Item
  | it, [] => .ok it
  | it, currencyId :: rest =>
    match applyCurrencyPure g it currencyId with
    | .error e => .error e
    | .ok it' => applyChain g it' rest

/-- Storage-layer operation (storage.rs, Operation), with the identifier
embedded as its UTF-8 byte sequence, as the codec sees it. -/
inductive StOperation
  | currency (id : List Nat)
deriving DecidableEq, Repr

/-- Compact storage form of an item (storage.rs, StoredItem), identifiers as
byte sequences. -/
structure StoredItem where
  baseTypeId : List Nat
  seed : Nat
  operations : List StOperation
deriving DecidableEq, Repr

/-- Collection of stored items (storage.rs, ItemCollection). -/
structure ItemCollection where
  items : List StoredItem
deriving DecidableEq, Repr

/-- Decode error taxonomy (storage.rs, DecodeError).  The `Io` case cannot
arise over an in-memory buffer. -/
inductive DecodeError
  | invalidVersion (v : Nat)
  | invalidMagic
  | invalidOperationType (t : Nat)
  | unexpectedEof
  | invalidStringIndex (i : Nat)
  | invalidUtf8
deriving DecidableEq, Repr

/-- Little-endian encoding of `n` into exactly `width` bytes, truncating the
high bits as the source's `to_le_bytes` on a fixed-width integer does. -/
def natLe : Nat → Nat → List Nat
  | 0, _ => []
  | width + 1, n => n % 256 :: natLe width (n / 256)

/-- Modelling of `write_string` (storage.rs lines 439-445): a one-byte
length capped at 255 followed by that many bytes of the string; longer
strings are silently truncated. -/
def writeByteString (s : List Nat) : List Nat :=
  let len := min s.length 255
  len :: s.take len

/-- Encoding of one operation in the single-item format (storage.rs lines
201-207): the op discriminant (0 = Currency) then the id string. -/
def encodeStOp : StOperation → List Nat
  | .currency id => 0 :: writeByteString id

/-- Modelling of `StoredItem::encode` (storage.rs lines 187-211): version,
base id string, seed as 8 little-endian bytes, operation count as 2 bytes
capped at 65535, then the operations. -/
def encodeStoredItem (it : StoredItem) : List Nat :=
  let opsCount := min it.operations.length 65535
  1 :: writeByteString it.baseTypeId ++ natLe 8 it.seed ++ natLe 2 opsCount ++
    ((it.operations.take opsCount).map encodeStOp).flatten

/-- Reader result: the value and the remaining input. -/
abbrev ReadResult (α : Type) := Except DecodeError (α × List Nat)

/-- Sequencing of two readers. -/
def rbind {α β : Type} (r : ReadResult α)
    (f : α → List Nat → ReadResult β) : ReadResult β :=
  match r with
  | .error e => .error e
  | .ok (a, rest) => f a rest

/-- Read one byte; an empty input is the source's `UnexpectedEof`. -/
def readU8 : List Nat → ReadResult Nat
  | [] => .error .unexpectedEof
  | b :: rest => .ok (b, rest)

/-- Read a `width`-byte little-endian unsigned integer. -/
def readLe : Nat → List Nat → ReadResult Nat
  | 0, input => .ok (0, input)
  | width + 1, input =>
    rbind (readU8 input) fun b rest =>
      rbind (readLe width rest) fun hi rest' => .ok (b + 256 * hi, rest')

/-- Read exactly `n` bytes. -/
def readBytesN : Nat → List Nat → ReadResult (List Nat)
  | 0, input => .ok ([], input)
  | n + 1, input =>
    rbind (readU8 input) fun b rest =>
      rbind (readBytesN n rest) fun bs rest' => .ok (b :: bs, rest')

/-- A UTF-8 continuation byte. -/
def isCont (b : Nat) : Bool := 128 ≤ b && b ≤ 191

/-- UTF-8 validity of a byte sequence, as `String::from_utf8` checks it (the
standard acceptance table: ASCII; C2-DF and one continuation; E0 with A0-BF;
E1-EC and ED (second byte 80-9F, excluding surrogates) and EE-EF with two
continuations; F0 with 90-BF, F1-F3, and F4 (second byte 80-8F, capping at
U+10FFFF) with three continuations; overlong forms C0-C1 and F5-FF
rejected). -/
def isValidUtf8 : List Nat → Bool
  | [] => true
  | b :: rest =>
    if b ≤ 127 then isValidUtf8 rest
    else if 194 ≤ b && b ≤ 223 then
      match rest with
      | c1 :: rest2 => isCont c1 && isValidUtf8 rest2
      | [] => false
    else if b == 224 then
      match rest with
      | c1 :: c2 :: rest2 =>
        (160 ≤ c1 && c1 ≤ 191) && isCont c2 && isValidUtf8 rest2
      | _ => false
    else if 225 ≤ b && b ≤ 236 then
      match rest with
      | c1 :: c2 :: rest2 => isCont c1 && isCont c2 && isValidUtf8 rest2
      | _ => false
    else if b == 237 then
      match rest with
      | c1 :: c2 :: rest2 =>
        (128 ≤ c1 && c1 ≤ 159) && isCont c2 && isValidUtf8 rest2
      | _ => false
    else if 238 ≤ b && b ≤ 239 then
      match rest with
      | c1 :: c2 :: rest2 => isCont c1 && isCont c2 && isValidUtf8 rest2
      | _ => false
    else if b == 240 then
      match rest with
      | c1 :: c2 :: c3 :: rest2 =>
        (144 ≤ c1 && c1 ≤ 191) && isCont c2 && isCont c3 && isValidUtf8 rest2
      | _ => false
    else if 241 ≤ b && b ≤ 243 then
      match rest with
      | c1 :: c2 :: c3 :: rest2 =>
        isCont c1 && isCont c2 && isCont c3 && isValidUtf8 rest2
      | _ => false
    else if b == 244 then
      match rest with
      | c1 :: c2 :: c3 :: rest2 =>
        (128 ≤ c1 && c1 ≤ 143) && isCont c2 && isCont c3 && isValidUtf8 rest2
      | _ => false
    else false

/-- Modelling of `read_string` (storage.rs lines 495-506): a one-byte length,
then that many bytes, which `String::from_utf8` re-validates; an invalid
sequence is the source's `InvalidUtf8` error. -/
def readByteString (input : List Nat) : ReadResult (List Nat) :=
  rbind (readU8 input) fun len rest =>
    rbind (readBytesN len rest) fun bytes rest2 =>
      if isValidUtf8 bytes then .ok (bytes, rest2) else .error .invalidUtf8

/-- Read `count` operations of the single-item format (storage.rs lines
232-241). -/
def readStOps : Nat → List Nat → ReadResult (List StOperation)
  | 0, input => .ok ([], input)
  | count + 1, input =>
    rbind (readU8 input) fun opType rest =>
      if opType == 0 then
        rbind (readByteString rest) fun id rest' =>
          rbind (readStOps count rest') fun ops rest'' =>
            .ok (.currency id :: ops, rest'')
      else .error (.invalidOperationType opType)

/-- Modelling of `StoredItem::decode` (storage.rs lines 215-249). -/
def decodeStoredItem (input : List Nat) : ReadResult StoredItem :=
  rbind (readU8 input) fun version rest =>
    if version == 1 then
      rbind (readByteString rest) fun baseTypeId rest1 =>
        rbind (readLe 8 rest1) fun seed rest2 =>
          rbind (readLe 2 rest2) fun opsCount rest3 =>
            rbind (readStOps opsCount rest3) fun operations rest4 =>
              .ok ({ baseTypeId := baseTypeId, seed := seed,
                     operations := operations }, rest4)
    else .error (.invalidVersion version)

/-- String interning step (the `intern` closure of `ItemCollection::encode`):
append the string to the table unless it is already present. -/
def addIntern (tbl : List (List Nat)) (s : List Nat) : List (List Nat) :=
  if s ∈ tbl then tbl else tbl ++ [s]

/-- Intern all strings one item references, base type id first, then each
operation's currency id, in order. -/
def internStringsOfItem (tbl : List (List Nat)) (it : StoredItem) :
    List (List Nat) :=
  it.operations.foldl (fun acc op => match op with | .currency id => addIntern acc id)
    (addIntern tbl it.baseTypeId)

/-- The interned string table of a collection, in first-appearance order
(storage.rs lines 309-333). -/
def internTable (items : List StoredItem) : List (List Nat) :=
  items.foldl internStringsOfItem []

/-- Index of a string in the table (the `string_indices` map of the
source). -/
def tblIndexOf : List (List Nat) → List Nat → Nat
  | [], _ => 0
  | t :: rest, s => if t = s then 0 else 1 + tblIndexOf rest s

/-- Encoding of one item of the collection format (storage.rs lines
350-367): table index of the base id, seed, operation count capped at
65535, then per operation the discriminant and the id's table index. -/
def encodeCollItem (tbl : List (List Nat)) (it : StoredItem) : List Nat :=
  let opsCount := min it.operations.length 65535
  natLe 2 (tblIndexOf tbl it.baseTypeId) ++ natLe 8 it.seed ++
    natLe 2 opsCount ++
    ((it.operations.take opsCount).map fun op =>
      match op with
      | .currency id => 0 :: natLe 2 (tblIndexOf tbl id)).flatten

/-- Modelling of `ItemCollection::encode` (storage.rs lines 307-370): magic,
version, interned string table (count capped at 65535), item count capped at
4294967295, then the items. -/
def encodeItemCollection (c : ItemCollection) : List Nat :=
  let tbl := internTable c.items
  let tableCount := min tbl.length 65535
  let itemsCount := min c.items.length 4294967295
  [76, 79, 79, 84] ++ [1] ++ natLe 2 tableCount ++
    ((tbl.take tableCount).map writeByteString).flatten ++
    natLe 4 itemsCount ++
    ((c.items.take itemsCount).map (encodeCollItem tbl)).flatten

/-- Read `count` interned strings of the collection's string table. -/
def readTableStrings : Nat → List Nat → ReadResult (List (List Nat))
  | 0, input => .ok ([], input)
  | count + 1, input =>
    rbind (readByteString input) fun s rest =>
      rbind (readTableStrings count rest) fun ss rest' => .ok (s :: ss, rest')

/-- Read `count` operations of the collection format, resolving indices
against the string table (storage.rs lines 411-424). -/
def readCollOps (tbl : List (List Nat)) :
    Nat → List Nat → ReadResult (List StOperation)
  | 0, input => .ok ([], input)
  | count + 1, input =>
    rbind (readU8 input) fun opType rest =>
      if opType == 0 then
        rbind (readLe 2 rest) fun idx rest' =>
          match tbl.get? idx with
          | none => .error (.invalidStringIndex idx)
          | some id =>
            rbind (readCollOps tbl count rest') fun ops rest'' =>
              .ok (.currency id :: ops, rest'')
      else .error (.invalidOperationType opType)

/-- Read `count` items of the collection format (storage.rs lines
399-431). -/
def readCollItems (tbl : List (List Nat)) :
    Nat → List Nat → ReadResult (List StoredItem)
  | 0, input => .ok ([], input)
  | count + 1, input =>
    rbind (readLe 2 input) fun baseIdx rest =>
      match tbl.get? baseIdx with
      | none => .error (.invalidStringIndex baseIdx)
      | some baseTypeId =>
        rbind (readLe 8 rest) fun seed rest1 =>
          rbind (readLe 2 rest1) fun opsCount rest2 =>
            rbind (readCollOps tbl opsCount rest2) fun operations rest3 =>
              rbind (readCollItems tbl count rest3) fun items rest4 =>
                .ok ({ baseTypeId := baseTypeId, seed := seed,
                       operations := operations } :: items, rest4)

/-- Modelling of `ItemCollection::decode` (storage.rs lines 374-434). -/
def decodeItemCollection (input : List Nat) : ReadResult ItemCollection :=
  rbind (readBytesN 4 input) fun magic rest =>
    if magic = [76, 79, 79, 84] then
      rbind (readU8 rest) fun version rest1 =>
        if version == 1 then
          rbind (readLe 2 rest1) fun tableCount rest2 =>
            rbind (readTableStrings tableCount rest2) fun tbl rest3 =>
              rbind (readLe 4 rest3) fun itemsCount rest4 =>
                rbind (readCollItems tbl itemsCount rest4) fun items rest5 =>
                  .ok ({ items := items }, rest5)
        else .error (.invalidVersion version)
    else .error .invalidMagic

/-- Wellformedness of one storage operation as the image of a Rust value:
its id fits the length prefix and, being the bytes of a Rust `String`, is
valid UTF-8. -/
def stOpWF (op : StOperation) : Prop :=
  match op with
  | .currency id => id.length ≤ 255 ∧ isValidUtf8 id = true

instance : DecidablePred stOpWF := fun op =>
  match op with
  | .currency id =>
    inferInstanceAs (Decidable (id.length ≤ 255 ∧ isValidUtf8 id = true))

/-- Wellformedness of one stored item as the image of a Rust value: the id
strings fit their length prefix untruncated and are valid UTF-8 (automatic
for Rust `String`s), the seed is a u64 and the operation count fits its u16
field. -/
def storedItemWF (it : StoredItem) : Prop :=
  it.baseTypeId.length ≤ 255 ∧ isValidUtf8 it.baseTypeId = true ∧
    it.seed < 18446744073709551616 ∧
    it.operations.length ≤ 65535 ∧ ∀ op ∈ it.operations, stOpWF op

instance (it : StoredItem) : Decidable (storedItemWF it) := by
  unfold storedItemWF; infer_instance

/-- Wellformedness of a collection: every item is wellformed, the interned
string table fits its u16 count and the item count fits its u32 field. -/
def collectionWF (c : ItemCollection) : Prop :=
  (∀ it ∈ c.items, storedItemWF it) ∧
    (internTable c.items).length ≤ 65535 ∧
    c.items.length ≤ 4294967295

instance (c : ItemCollection) : Decidable (collectionWF c) := by
  unfold collectionWF; infer_instance

/-- Default requirements value (all zero). -/
def reqZero : Requirements := ⟨0, 0, 0, 0, 0, 0, 0⟩

/-- Requirements gate that accepts everything (config default). -/
def reqNone : CurrencyRequirements := ⟨[], false, false⟩

/-- Effects block with every field off (config default). -/
def fxNone : CurrencyEffects := ⟨none, false, none, [], none, none, false, []⟩

/-- A placeholder item used only as the default of `Option.getD`. -/
def arbitraryItem : Item :=
  newNormalItem ⟨"", "", .ring, [], none, none, none, reqZero⟩ 0

/-- Test base type with an implicit and no defenses. -/
def baseB : BaseTypeConfig :=
  { id := "b", name := "Band", itemClass := .ring, tags := []
    implicit := some ⟨.addedLife, 1, 5⟩, defenses := none, damage := none
    requirements := { reqZero with level := 10 } }

/-- Test prefix affix with a single tier. -/
def affixA : AffixConfig :=
  { id := "a", name := "Healthy", affixType := .pre, stat := .addedLife
    scope := .localScope, tags := [], allowedClasses := []
    tiers := [⟨1, 10, 1, 20, none, 0⟩] }

/-- Test suffix affix with a single tier. -/
def affixS1 : AffixConfig :=
  { id := "s1", name := "of Embers", affixType := .suf, stat := .fireResistance
    scope := .localScope, tags := [], allowedClasses := []
    tiers := [⟨1, 10, 5, 10, none, 0⟩] }

/-- Test configuration used by most witnesses: one base, two affixes, one
pool and four currencies. -/
def cfgA : Config :=
  { baseTypes := [baseB]
    affixes := [affixA, affixS1]
    affixPools := [⟨"p", "", "", ["a", "s1"]⟩]
    currencies :=
      [{ id := "t", name := "Transmute", description := "", category := ""
         requires := reqNone, effects := { fxNone with setRarity := some .magic } },
       { id := "adda", name := "Augment", description := "", category := ""
         requires := reqNone
         effects := { fxNone with addAffixes := some ⟨1, 1⟩, affixPools := ["p"] } },
       { id := "slot", name := "Slotted", description := "", category := ""
         requires := { reqNone with hasAffixSlot := true }
         effects := { fxNone with setRarity := some .magic } },
       { id := "halfway", name := "Halfway", description := "", category := ""
         requires := reqNone
         effects := { fxNone with setRarity := some .magic, removeAffixes := some 1 } },
       { id := "gate", name := "Gate", description := "", category := ""
         requires := { reqNone with rarities := [.rare] }, effects := fxNone },
       { id := "rem", name := "Remove", description := "", category := ""
         requires := { reqNone with hasAffix := true }
         effects := { fxNone with removeAffixes := some 1 } }]
    uniques := []
    uniqueRecipes := [] }


/-- Minimal test base type with no implicit or defenses. -/
def baseB2 : BaseTypeConfig :=
  { id := "b2", name := "Blade", itemClass := .dagger, tags := []
    implicit := none, defenses := none, damage := none
    requirements := reqZero }

/-- Test configuration with a two-mod unique on a minimal base. -/
def cfgU : Config :=
  { baseTypes := [baseB2]
    affixes := []
    affixPools := []
    currencies := []
    uniques :=
      [{ id := "u", name := "The Whisper", baseType := "b2", flavor := none
         mods := [⟨.addedLife, 1, 10⟩, ⟨.fireResistance, 1, 10⟩] }]
    uniqueRecipes := [] }


/-- Test prefix affix for the unique-recipe configuration. -/
def affixA9 : AffixConfig :=
  { id := "a9", name := "Healthy", affixType := .pre, stat := .addedLife
    scope := .localScope, tags := [], allowedClasses := []
    tiers := [⟨1, 1, 0, 10, none, 0⟩] }

/-- Test configuration with a unique recipe whose single mapping is a direct
mapping with influence one half. -/
def cfgC9 : Config :=
  { baseTypes := [{ id := "b9", name := "Sigil", itemClass := .amulet, tags := []
                    implicit := none, defenses := none, damage := none
                    requirements := reqZero }]
    affixes := [affixA9]
    affixPools := []
    currencies :=
      [{ id := "c9", name := "Catalyst", description := "", category := ""
         requires := reqNone, effects := { fxNone with tryUnique := true } }]
    uniques :=
      [{ id := "u9", name := "Heart of Flame", baseType := "b9", flavor := none
         mods := [⟨.addedLife, 0, 100⟩] }]
    uniqueRecipes :=
      [{ uniqueId := "u9", baseType := "b9", weight := 100
         requiredAffixes := [⟨.addedLife, none, 1, 99⟩]
         mappings := [⟨.addedLife, 0, .direct, ⟨1, 2⟩⟩] }] }

/-- Hand-built rare item carrying the a9 prefix with value 3, used as the
concrete input of the unique-transformation computations (its prefix has
value 4). -/
def itemC9 : Item :=
  { newNormalItem ((cfgC9.getBase "b9").getD baseB2) 0 with
      rarity := .rare
      prefixes := [Modifier.fromAffix affixA9 ⟨1, 1, 0, 10, none, 0⟩ 4 none] }

/-- Test prefix affix b6 for the iteration-order configuration. -/
def affixB6 : AffixConfig :=
  { id := "b6", name := "Brisk", affixType := .pre, stat := .addedMana
    scope := .localScope, tags := [], allowedClasses := []
    tiers := [⟨1, 1, 1, 1, none, 0⟩] }

/-- Test prefix affix a6 for the iteration-order configuration. -/
def affixA6 : AffixConfig :=
  { id := "a6", name := "Alert", affixType := .pre, stat := .addedLife
    scope := .localScope, tags := [], allowedClasses := []
    tiers := [⟨1, 1, 1, 1, none, 0⟩] }

/-- Configuration whose affix table iterates in the order b6, a6. -/
def cfgC6 : Config :=
  { baseTypes := [], affixes := [affixB6, affixA6], affixPools := []
    currencies := [], uniques := [], uniqueRecipes := [] }

/-- The same affix table contents in the opposite iteration order. -/
def cfgC6r : Config :=
  { baseTypes := [], affixes := [affixA6, affixB6], affixPools := []
    currencies := [], uniques := [], uniqueRecipes := [] }


/-- Spec-side rounding: `round(num / den)` (half away from zero upward) for
a positive denominator, as the specification's `round` in the blend
formula.  Modelled from the spec: `final = round(influence * mapped +
(1-influence) * r)`. -/
def roundHalfUp (num den : Int) : Int := Int.fdiv (2 * num + den) (2 * den)

/-- Sequencing a successful read unfolds to the continuation. -/
theorem rbind_ok {α β : Type} (a : α) (rest : List Nat)
    (f : α → List Nat → ReadResult β) : rbind (.ok (a, rest)) f = f a rest := rfl

/-- Reading back a little-endian encoding returns the encoded value when it
fits the width. -/
theorem readLe_natLe : ∀ (width n : Nat) (rest : List Nat),
    n < 256 ^ width → readLe width (natLe width n ++ rest) = .ok (n, rest)
  | 0, n, rest, h => by
    have hn : n = 0 := by simpa using Nat.lt_one_iff.mp (by simpa using h)
    subst hn; rfl
  | width + 1, n, rest, h => by
    have hdiv : n / 256 < 256 ^ width := by
      have h256 : (0 : Nat) < 256 := by norm_num
      rw [Nat.div_lt_iff_lt_mul h256]
      calc n < 256 ^ (width + 1) := h
        _ = 256 ^ width * 256 := by ring
    simp only [natLe, readLe, List.cons_append, readU8, rbind,
      readLe_natLe width (n / 256) rest hdiv]
    have hn : n % 256 + 256 * (n / 256) = n := by omega
    rw [hn]

/-- Reading back exactly the bytes just written returns them. -/
theorem readBytesN_self : ∀ (s rest : List Nat),
    readBytesN s.length (s ++ rest) = .ok (s, rest)
  | [], rest => rfl
  | b :: s, rest => by
    simp only [List.length_cons, List.cons_append, readBytesN, readU8, rbind,
      readBytesN_self s rest]

/-- Round trip of the length-prefixed string writer on strings that fit the
one-byte length. -/
theorem readByteString_write (s rest : List Nat) (h : s.length ≤ 255)
    (hv : isValidUtf8 s = true) :
    readByteString (writeByteString s ++ rest) = .ok (s, rest) := by
  have hmin : min s.length 255 = s.length := Nat.min_eq_left h
  simp only [writeByteString, hmin, List.take_length, readByteString,
    List.cons_append, readU8, rbind, readBytesN_self s rest, hv, if_true]

/-- Round trip of the single-item operation list. -/
theorem readStOps_encode : ∀ (ops : List StOperation) (rest : List Nat),
    (∀ op ∈ ops, stOpWF op) →
    readStOps ops.length (((ops.map encodeStOp).flatten) ++ rest) = .ok (ops, rest)
  | [], rest, _ => rfl
  | .currency id :: ops, rest, h => by
    obtain ⟨hid, hidv⟩ : id.length ≤ 255 ∧ isValidUtf8 id = true :=
      h (.currency id) (List.mem_cons_self ..)
    have hops : ∀ op ∈ ops, stOpWF op :=
      fun op hop => h op (List.mem_cons_of_mem _ hop)
    simp only [List.length_cons, List.map_cons, List.flatten_cons, encodeStOp,
      List.cons_append, List.append_assoc, readStOps, readU8, rbind,
      readByteString_write id _ hid hidv, beq_self_eq_true, if_true,
      readStOps_encode ops rest hops]

/-- Round trip of `StoredItem::encode` then `StoredItem::decode` for items
whose fields fit the format. -/
theorem decode_encode_storedItem (it : StoredItem) (h : storedItemWF it) :
    decodeStoredItem (encodeStoredItem it) = .ok (it, []) := by
  obtain ⟨hbase, hbasev, hseed, hops, hids⟩ := h
  have hcount : min it.operations.length 65535 = it.operations.length :=
    Nat.min_eq_left hops
  have hc2 : it.operations.length < 256 ^ 2 := by
    have := hops; norm_num; omega
  have h8 : it.seed < 256 ^ 8 := by
    have := hseed; norm_num; omega
  have henc : encodeStoredItem it =
      1 :: (writeByteString it.baseTypeId ++ (natLe 8 it.seed ++
        (natLe 2 it.operations.length ++
          (((it.operations.map encodeStOp).flatten) ++ [])))) := by
    simp [encodeStoredItem, hcount, List.append_assoc]
  rw [henc]
  simp only [decodeStoredItem, readU8, rbind, beq_self_eq_true, if_true,
    readByteString_write it.baseTypeId _ hbase hbasev,
    readLe_natLe 8 it.seed _ h8,
    readLe_natLe 2 it.operations.length _ hc2,
    readStOps_encode it.operations [] hids]

/-- Interning preserves the strings already in the table. -/
theorem mem_addIntern (tbl : List (List Nat)) (s a : List Nat)
    (h : a ∈ tbl) : a ∈ addIntern tbl s := by
  unfold addIntern
  split
  · exact h
  · exact List.mem_append_left _ h

/-- Interning puts the string in the table. -/
theorem self_mem_addIntern (tbl : List (List Nat)) (s : List Nat) :
    s ∈ addIntern tbl s := by
  unfold addIntern
  split
  · assumption
  · exact List.mem_append_right _ (List.mem_singleton.mpr rfl)

/-- The operation fold of the interner preserves table membership. -/
theorem mem_internOps (a : List Nat) :
    ∀ (ops : List StOperation) (tbl : List (List Nat)), a ∈ tbl →
    a ∈ ops.foldl (fun acc op => match op with | .currency id => addIntern acc id) tbl
  | [], _, h => h
  | .currency id :: ops, tbl, h =>
    mem_internOps a ops (addIntern tbl id) (mem_addIntern tbl id a h)

/-- Every currency id of the operation list ends up in the table. -/
theorem opId_mem_internOps (id : List Nat) :
    ∀ (ops : List StOperation) (tbl : List (List Nat)),
    StOperation.currency id ∈ ops →
    id ∈ ops.foldl (fun acc op => match op with | .currency id => addIntern acc id) tbl
  | [], _, h => absurd h (List.not_mem_nil _)
  | .currency id' :: ops, tbl, h => by
    rcases List.mem_cons.mp h with heq | hmem
    · cases heq
      exact mem_internOps id ops _ (self_mem_addIntern tbl id)
    · exact opId_mem_internOps id ops (addIntern tbl id') hmem

/-- The per-item interner preserves table membership. -/
theorem mem_internStringsOfItem (a : List Nat) (tbl : List (List Nat))
    (it : StoredItem) (h : a ∈ tbl) : a ∈ internStringsOfItem tbl it :=
  mem_internOps a it.operations _ (mem_addIntern tbl it.baseTypeId a h)

/-- The item fold of the interner preserves table membership. -/
theorem mem_internItemsFold (a : List Nat) :
    ∀ (items : List StoredItem) (tbl : List (List Nat)), a ∈ tbl →
    a ∈ items.foldl internStringsOfItem tbl
  | [], _, h => h
  | it :: items, tbl, h =>
    mem_internItemsFold a items _ (mem_internStringsOfItem a tbl it h)

/-- The base type id of every item is interned. -/
theorem base_mem_internFold :
    ∀ (items : List StoredItem) (tbl : List (List Nat)) (it : StoredItem),
    it ∈ items → it.baseTypeId ∈ items.foldl internStringsOfItem tbl
  | [], _, it, h => absurd h (List.not_mem_nil _)
  | it' :: items, tbl, it, h => by
    rcases List.mem_cons.mp h with rfl | hmem
    · exact mem_internItemsFold _ items _
        (mem_internOps _ it.operations _ (self_mem_addIntern tbl it.baseTypeId))
    · exact base_mem_internFold items (internStringsOfItem tbl it') it hmem

/-- The currency id of every operation of every item is interned. -/
theorem opId_mem_internFold :
    ∀ (items : List StoredItem) (tbl : List (List Nat)) (it : StoredItem)
    (id : List Nat), it ∈ items → StOperation.currency id ∈ it.operations →
    id ∈ items.foldl internStringsOfItem tbl
  | [], _, it, id, h, _ => absurd h (List.not_mem_nil _)
  | it' :: items, tbl, it, id, h, hop => by
    rcases List.mem_cons.mp h with rfl | hmem
    · exact mem_internItemsFold _ items _
        (opId_mem_internOps id it.operations _ hop)
    · exact opId_mem_internFold items (internStringsOfItem tbl it') it id hmem hop

/-- The interner's index resolves back to the interned string. -/
theorem get?_tblIndexOf :
    ∀ (tbl : List (List Nat)) (s : List Nat), s ∈ tbl →
    tbl.get? (tblIndexOf tbl s) = some s
  | [], s, h => absurd h (List.not_mem_nil _)
  | t :: tbl, s, h => by
    unfold tblIndexOf
    split
    · simp [*]
    · rcases List.mem_cons.mp h with heq | hmem
      · exact absurd heq.symm (by assumption)
      · simpa [Nat.add_comm 1 (tblIndexOf tbl s)]
          using get?_tblIndexOf tbl s hmem

/-- The interner's index is within the table. -/
theorem tblIndexOf_lt :
    ∀ (tbl : List (List Nat)) (s : List Nat), s ∈ tbl →
    tblIndexOf tbl s < tbl.length
  | [], s, h => absurd h (List.not_mem_nil _)
  | t :: tbl, s, h => by
    unfold tblIndexOf
    split
    · simp
    · rcases List.mem_cons.mp h with heq | hmem
      · exact absurd heq.symm (by assumption)
      · simpa [Nat.add_comm 1 (tblIndexOf tbl s), Nat.succ_lt_succ_iff]
          using tblIndexOf_lt tbl s hmem

/-- Round trip of the collection's string table section. -/
theorem readTableStrings_encode :
    ∀ (tbl : List (List Nat)) (rest : List Nat),
    (∀ s ∈ tbl, s.length ≤ 255 ∧ isValidUtf8 s = true) →
    readTableStrings tbl.length (((tbl.map writeByteString).flatten) ++ rest) =
      .ok (tbl, rest)
  | [], rest, _ => rfl
  | s :: tbl, rest, h => by
    simp only [List.length_cons, List.map_cons, List.flatten_cons,
      List.append_assoc, readTableStrings, rbind,
      readByteString_write s _ (h s (List.mem_cons_self ..)).1
        (h s (List.mem_cons_self ..)).2,
      readTableStrings_encode tbl rest (fun t ht => h t (List.mem_cons_of_mem _ ht))]

/-- Round trip of the collection's per-item operation section: indices of
interned ids resolve back to the ids. -/
theorem readCollOps_encode (tbl : List (List Nat)) (hlen : tbl.length ≤ 65535) :
    ∀ (ops : List StOperation) (rest : List Nat),
    (∀ id, StOperation.currency id ∈ ops → id ∈ tbl) →
    readCollOps tbl ops.length
      (((ops.map fun op => match op with
         | .currency id => 0 :: natLe 2 (tblIndexOf tbl id)).flatten) ++ rest) =
      .ok (ops, rest)
  | [], rest, _ => rfl
  | .currency id :: ops, rest, h => by
    have hid : id ∈ tbl := h id (List.mem_cons_self ..)
    have hlt : tblIndexOf tbl id < 256 ^ 2 := by
      have := tblIndexOf_lt tbl id hid
      have := hlen
      norm_num
      omega
    simp only [List.length_cons, List.map_cons, List.flatten_cons,
      List.cons_append, List.append_assoc, readCollOps, readU8, rbind,
      beq_self_eq_true, if_true, readLe_natLe 2 _ _ hlt,
      get?_tblIndexOf tbl id hid,
      readCollOps_encode tbl hlen ops rest
        (fun id' hid' => h id' (List.mem_cons_of_mem _ hid'))]

/-- Round trip of the collection's item section. -/
theorem readCollItems_encode (tbl : List (List Nat)) (hlen : tbl.length ≤ 65535) :
    ∀ (items : List StoredItem) (rest : List Nat),
    (∀ it ∈ items, storedItemWF it ∧ it.baseTypeId ∈ tbl ∧
      ∀ id, StOperation.currency id ∈ it.operations → id ∈ tbl) →
    readCollItems tbl items.length
      (((items.map (encodeCollItem tbl)).flatten) ++ rest) = .ok (items, rest)
  | [], rest, _ => rfl
  | it :: items, rest, h => by
    obtain ⟨⟨hbase255, hbasev, hseed, hops, hids255⟩, hbase, hidmem⟩ :=
      h it (List.mem_cons_self ..)
    have hbaselt : tblIndexOf tbl it.baseTypeId < 256 ^ 2 := by
      have := tblIndexOf_lt tbl it.baseTypeId hbase
      have := hlen
      norm_num
      omega
    have hseed8 : it.seed < 256 ^ 8 := by
      have := hseed; norm_num; omega
    have hcount : min it.operations.length 65535 = it.operations.length :=
      Nat.min_eq_left hops
    have hc2 : it.operations.length < 256 ^ 2 := by
      have := hops; norm_num; omega
    have henc : encodeCollItem tbl it =
        natLe 2 (tblIndexOf tbl it.baseTypeId) ++ (natLe 8 it.seed ++
          (natLe 2 it.operations.length ++
            ((it.operations.map fun op => match op with
              | .currency id => 0 :: natLe 2 (tblIndexOf tbl id)).flatten))) := by
      simp [encodeCollItem, hcount, List.append_assoc]
    simp only [List.length_cons, List.map_cons, List.flatten_cons, henc,
      List.append_assoc, readCollItems, rbind,
      readLe_natLe 2 _ _ hbaselt, get?_tblIndexOf tbl it.baseTypeId hbase,
      readLe_natLe 8 _ _ hseed8, readLe_natLe 2 _ _ hc2,
      readCollOps_encode tbl hlen it.operations _ hidmem,
      readCollItems_encode tbl hlen items rest
        (fun it' hit' => h it' (List.mem_cons_of_mem _ hit'))]

/-- A string in an interned table is an old entry or the interned string. -/
theorem mem_addIntern_cases (tbl : List (List Nat)) (s a : List Nat)
    (h : a ∈ addIntern tbl s) : a ∈ tbl ∨ a = s := by
  unfold addIntern at h
  split at h
  · exact Or.inl h
  · rcases List.mem_append.mp h with h1 | h1
    · exact Or.inl h1
    · exact Or.inr (List.mem_singleton.mp h1)

/-- A string in the table after the operation fold is an old entry or one of
the folded currency ids. -/
theorem mem_internOps_src (a : List Nat) :
    ∀ (ops : List StOperation) (tbl : List (List Nat)),
    a ∈ ops.foldl (fun acc op => match op with | .currency id => addIntern acc id) tbl →
    a ∈ tbl ∨ ∃ id, StOperation.currency id ∈ ops ∧ a = id
  | [], _, h => Or.inl h
  | .currency id0 :: ops, tbl, h => by
    rcases mem_internOps_src a ops (addIntern tbl id0) h with h1 | ⟨id1, hid1, heq⟩
    · rcases mem_addIntern_cases tbl id0 a h1 with h2 | heq2
      · exact Or.inl h2
      · exact Or.inr ⟨id0, List.mem_cons_self .., heq2⟩
    · exact Or.inr ⟨id1, List.mem_cons_of_mem _ hid1, heq⟩

/-- A string in the table after the item fold is an old entry or a string of
one of the folded items. -/
theorem mem_internItemsFold_src :
    ∀ (items : List StoredItem) (tbl : List (List Nat)) (a : List Nat),
    a ∈ items.foldl internStringsOfItem tbl →
    a ∈ tbl ∨ ∃ it ∈ items, a = it.baseTypeId ∨
      ∃ id, StOperation.currency id ∈ it.operations ∧ a = id
  | [], _, _, h => Or.inl h
  | it :: items, tbl, a, h => by
    rcases mem_internItemsFold_src items (internStringsOfItem tbl it) a h with
      h1 | ⟨it', hit', hcase⟩
    · rcases mem_internOps_src a it.operations _ h1 with h2 | ⟨id1, hid1, heq⟩
      · rcases mem_addIntern_cases tbl it.baseTypeId a h2 with h3 | heq3
        · exact Or.inl h3
        · exact Or.inr ⟨it, List.mem_cons_self .., Or.inl heq3⟩
      · exact Or.inr ⟨it, List.mem_cons_self .., Or.inr ⟨id1, hid1, heq⟩⟩
    · exact Or.inr ⟨it', List.mem_cons_of_mem _ hit', hcase⟩

/-- Round trip of `ItemCollection::encode` then `ItemCollection::decode` for
collections whose fields fit the format. -/
theorem decode_encode_collection (c : ItemCollection) (h : collectionWF c) :
    decodeItemCollection (encodeItemCollection c) = .ok (c, []) := by
  obtain ⟨hitems, htbl, hcnt⟩ := h
  have htcount : min (internTable c.items).length 65535 =
      (internTable c.items).length := Nat.min_eq_left htbl
  have hicount : min c.items.length 4294967295 = c.items.length :=
    Nat.min_eq_left hcnt
  have htbl2 : (internTable c.items).length < 256 ^ 2 := by
    have := htbl; norm_num; omega
  have hcnt4 : c.items.length < 256 ^ 4 := by
    have := hcnt; norm_num; omega
  have htblstr : ∀ s ∈ internTable c.items,
      s.length ≤ 255 ∧ isValidUtf8 s = true := by
    intro s hs
    rcases mem_internItemsFold_src c.items [] s hs with h0 | ⟨it, hit, hcase⟩
    · exact absurd h0 (List.not_mem_nil s)
    · obtain ⟨hb, hbv, _, _, hi⟩ := hitems it hit
      rcases hcase with heqb | ⟨id1, hop, heqi⟩
      · rw [heqb]; exact ⟨hb, hbv⟩
      · rw [heqi]; exact hi (.currency id1) hop
  have hmems : ∀ it ∈ c.items, storedItemWF it ∧
      it.baseTypeId ∈ internTable c.items ∧
      ∀ id, StOperation.currency id ∈ it.operations → id ∈ internTable c.items := by
    intro it hit
    exact ⟨hitems it hit, base_mem_internFold c.items [] it hit,
      fun id hid => opId_mem_internFold c.items [] it id hit hid⟩
  have henc : encodeItemCollection c =
      76 :: 79 :: 79 :: 84 :: 1 :: (natLe 2 (internTable c.items).length ++
        ((((internTable c.items).map writeByteString).flatten) ++
          (natLe 4 c.items.length ++
            (((c.items.map (encodeCollItem (internTable c.items))).flatten) ++ [])))) := by
    simp [encodeItemCollection, htcount, hicount, List.append_assoc]
  rw [henc]
  simp only [decodeItemCollection, readBytesN, readU8, rbind, if_true,
    beq_self_eq_true, readLe_natLe 2 _ _ htbl2,
    readTableStrings_encode _ _ htblstr, readLe_natLe 4 _ _ hcnt4,
    readCollItems_encode _ htbl c.items _ hmems]

/-- C8 counterexample input: a stored item whose base type id is 256 bytes
long (256 copies of byte 97, the letter a). -/
def c8LongItem : StoredItem := ⟨List.replicate 256 97, 0, []⟩

set_option maxRecDepth 8000 in
/-- C8: the claim is false as stated: encoding a stored item whose base type
id is longer than 255 bytes and decoding it back yields the id truncated to
its first 255 bytes, not a value equal to the original. -/
theorem c8_roundtrip_counterexample :
    decodeStoredItem (encodeStoredItem c8LongItem) =
      .ok (⟨List.replicate 255 97, 0, []⟩, []) ∧
    (⟨List.replicate 255 97, 0, []⟩ : StoredItem) ≠ c8LongItem := by
  refine ⟨by rfl, fun h => ?_⟩
  have hlen := congrArg (fun it => it.baseTypeId.length) h
  simp only [c8LongItem, List.length_replicate] at hlen
  exact absurd hlen (by norm_num)

/-- C8 (amended): the encode/decode round trip holds for every StoredItem
and every ItemCollection whose identifier strings are at most 255 bytes,
whose per-item operation counts fit the u16 count field, whose interned
string table fits its u16 count and whose item count fits its u32 field. -/
theorem c8_roundtrip_amended (it : StoredItem) (c : ItemCollection)
    (h1 : storedItemWF it) (h2 : collectionWF c) :
    decodeStoredItem (encodeStoredItem it) = .ok (it, []) ∧
    decodeItemCollection (encodeItemCollection c) = .ok (c, []) :=
  ⟨decode_encode_storedItem it h1, decode_encode_collection c h2⟩

/-- C8 witness: the amended round trip evaluated at a concrete two-item
collection sharing an interned identifier, with and without operations. -/
theorem c8_roundtrip_amended_witness :
    decodeStoredItem (encodeStoredItem ⟨[105, 100], 7, [.currency [99]]⟩) =
      .ok (⟨[105, 100], 7, [.currency [99]]⟩, []) ∧
    decodeItemCollection (encodeItemCollection
        ⟨[⟨[105, 100], 7, [.currency [99]]⟩, ⟨[105, 100], 8, []⟩]⟩) =
      .ok (⟨[⟨[105, 100], 7, [.currency [99]]⟩, ⟨[105, 100], 8, []⟩]⟩, []) :=
  c8_roundtrip_amended ⟨[105, 100], 7, [.currency [99]]⟩
    ⟨[⟨[105, 100], 7, [.currency [99]]⟩, ⟨[105, 100], 8, []⟩]⟩
    (by decide) (by decide)

/-- C10 counterexample input: a stored item whose base type id is the
256-byte UTF-8 encoding of 128 copies of a two-byte character (C3 A9, the
letter e-acute); its 255-byte truncation splits the last character. -/
def c10MultiByteItem : StoredItem := ⟨(List.replicate 128 [195, 169]).flatten, 0, []⟩

set_option maxRecDepth 8000 in
/-- C10 counterexample: the claim that the encoded form of every over-long
identifier decodes to the truncated id is false: encoding the 256-byte
id of 128 two-byte characters silently truncates as claimed, but decoding
fails with InvalidUtf8 because the 255-byte truncation ends in the lone
lead byte C3 and read_string re-validates UTF-8. -/
theorem c10_truncation_counterexample :
    writeByteString c10MultiByteItem.baseTypeId =
      255 :: c10MultiByteItem.baseTypeId.take 255 ∧
    isValidUtf8 (c10MultiByteItem.baseTypeId.take 255) = false ∧
    decodeStoredItem (encodeStoredItem c10MultiByteItem) =
      .error .invalidUtf8 :=
  ⟨by rfl, by rfl, by rfl⟩

/-- C10 (amended): binary encoding never fails on long identifiers: every
string longer than 255 bytes is silently truncated to its first 255 bytes
by the length-prefixed string writer, so no error is reported at encode
time; the encoded form then decodes to the truncated (different) id when
the cut lands on a character boundary (the 255-byte prefix is valid UTF-8),
and otherwise decoding fails with InvalidUtf8. -/
theorem c10_writeString_truncates (s : List Nat) (seed : Nat)
    (h : 255 < s.length) (hs : seed < 18446744073709551616) :
    writeByteString s = 255 :: s.take 255 ∧
    decodeStoredItem (encodeStoredItem ⟨s, seed, []⟩) =
      (if isValidUtf8 (s.take 255) = true then
        .ok (⟨s.take 255, seed, []⟩, [])
      else .error .invalidUtf8) ∧
    s.take 255 ≠ s := by
  have hmin : min s.length 255 = 255 := Nat.min_eq_right (le_of_lt h)
  have htk : (s.take 255).length = 255 := by
    rw [List.length_take]
    exact Nat.min_eq_left (le_of_lt h)
  refine ⟨by simp [writeByteString, hmin], ?_, ?_⟩
  · have h8 : seed < 256 ^ 8 := by norm_num; omega
    have h2 : (0 : Nat) < 256 ^ 2 := by norm_num
    have henc : encodeStoredItem ⟨s, seed, []⟩ =
        1 :: (255 :: (s.take 255 ++ (natLe 8 seed ++ (natLe 2 0 ++ [])))) := by
      simp [encodeStoredItem, writeByteString, hmin, List.append_assoc]
    rw [henc]
    have hbytes := readBytesN_self (s.take 255)
      (natLe 8 seed ++ (natLe 2 0 ++ []))
    rw [htk] at hbytes
    by_cases hv : isValidUtf8 (s.take 255) = true
    · rw [if_pos hv]
      simp only [decodeStoredItem, readU8, rbind, beq_self_eq_true, if_true,
        readByteString, hbytes, hv, readLe_natLe 8 seed _ h8,
        readLe_natLe 2 0 _ h2, readStOps]
    · rw [if_neg hv]
      have hv2 : isValidUtf8 (s.take 255) = false :=
        Bool.not_eq_true _ ▸ Bool.of_not_eq_true hv
      simp only [decodeStoredItem, readU8, rbind, beq_self_eq_true, if_true,
        readByteString, hbytes, hv2, Bool.false_eq_true, if_false]
  · intro heq
    have := congrArg List.length heq
    rw [htk] at this
    omega

set_option maxRecDepth 8000 in
/-- C10 witness: the amended truncation theorem evaluated at a 256-byte
all-ASCII identifier and seed 5, where the truncation is valid UTF-8 and
decoding yields it. -/
theorem c10_writeString_truncates_witness :
    writeByteString (List.replicate 256 97) =
      255 :: (List.replicate 256 97).take 255 ∧
    decodeStoredItem (encodeStoredItem ⟨List.replicate 256 97, 5, []⟩) =
      (if isValidUtf8 ((List.replicate 256 97).take 255) = true then
        .ok (⟨(List.replicate 256 97).take 255, 5, []⟩, [])
      else .error .invalidUtf8) ∧
    (List.replicate 256 97).take 255 ≠ List.replicate 256 97 :=
  c10_writeString_truncates (List.replicate 256 97) 5 (by simp) (by norm_num)

@[simp]
theorem Item.ctx_withCraft (it : Item) (s : CraftState) :
    (it.withCraft s).ctx = it.ctx := rfl

@[simp]
theorem Item.craft_withCraft (it : Item) (s : CraftState) :
    (it.withCraft s).craft = s := rfl

@[simp]
theorem Item.operations_withCraft (it : Item) (s : CraftState) :
    (it.withCraft s).operations = it.operations := rfl

@[simp]
theorem Item.seed_withCraft (it : Item) (s : CraftState) :
    (it.withCraft s).seed = it.seed := rfl

@[simp]
theorem Item.baseTypeId_withCraft (it : Item) (s : CraftState) :
    (it.withCraft s).baseTypeId = it.baseTypeId := rfl

@[simp]
theorem Item.implicit_withCraft (it : Item) (s : CraftState) :
    (it.withCraft s).implicit = it.implicit := rfl

@[simp]
theorem Item.defenses_withCraft (it : Item) (s : CraftState) :
    (it.withCraft s).defenses = it.defenses := rfl

@[simp]
theorem Item.damage_withCraft (it : Item) (s : CraftState) :
    (it.withCraft s).damage = it.damage := rfl

@[simp]
theorem Item.withCraft_craft (it : Item) : it.withCraft it.craft = it := rfl

@[simp]
theorem Item.craft_name (it : Item) : it.craft.name = it.name := rfl

@[simp]
theorem Item.craft_rarity (it : Item) : it.craft.rarity = it.rarity := rfl

@[simp]
theorem Item.craft_prefixes (it : Item) : it.craft.prefixes = it.prefixes := rfl

@[simp]
theorem Item.craft_suffixes (it : Item) : it.craft.suffixes = it.suffixes := rfl

@[simp]
theorem Item.ctx_baseTypeId (it : Item) : it.ctx.baseTypeId = it.baseTypeId := rfl

@[simp]
theorem applyCurrency_item (g : Config) (it : Item) (cur : CurrencyConfig)
    (rng : Rng) : (applyCurrency g it cur rng).2.1 =
      it.withCraft (applyCurrencyCore g it.ctx cur it.craft rng).2.1 := rfl

@[simp]
theorem applyCurrency_err (g : Config) (it : Item) (cur : CurrencyConfig)
    (rng : Rng) : (applyCurrency g it cur rng).1 =
      (applyCurrencyCore g it.ctx cur it.craft rng).1 := rfl

@[simp]
theorem applyCurrency_rng (g : Config) (it : Item) (cur : CurrencyConfig)
    (rng : Rng) : (applyCurrency g it cur rng).2.2 =
      (applyCurrencyCore g it.ctx cur it.craft rng).2.2 := rfl

/-- C2: whenever the pure apply succeeds, the returned item's operation log
is the input's log extended by exactly the one applied operation; an error
returns no item at all, so the caller's item — which the pure form never
mutates (the engine works on an internal clone and commits only on
success) — is unchanged in every field. -/
theorem c2_success_appends_one_op (g : Config) (it it' : Item)
    (currencyId : String)
    (h : applyCurrencyPure g it currencyId = .ok it') :
    it'.operations = it.operations ++ [Operation.currency currencyId] := by
  cases hc : g.getCurrency currencyId with
  | none =>
    simp only [applyCurrencyPure, hc] at h
    exact absurd h (by simp)
  | some cur =>
    simp only [applyCurrencyPure, hc] at h
    cases he : (applyCurrency g it cur (replayRng g it)).1 with
    | some err => rw [he] at h; simp at h
    | none =>
      rw [he] at h
      have hok := Except.ok.inj h
      rw [← hok]
      simp only [applyCurrency_item, Item.operations_withCraft]

/-- C2 witness: the log-growth law evaluated at the transmute currency of
the test configuration. -/
theorem c2_success_appends_one_op_witness :
    ((applyCurrencyPure cfgA ((generate cfgA "b" 7).getD arbitraryItem)
        "t").toOption.getD arbitraryItem).operations =
      ((generate cfgA "b" 7).getD arbitraryItem).operations ++
        [Operation.currency "t"] :=
  c2_success_appends_one_op cfgA ((generate cfgA "b" 7).getD arbitraryItem)
    (((applyCurrencyPure cfgA ((generate cfgA "b" 7).getD arbitraryItem)
        "t").toOption.getD arbitraryItem)) "t" (by rfl)

/-- C3 counterexample: on a fresh normal item, the currency `slot` (which
requires an affix slot and sets rarity to magic) has `can_apply = false` —
the slot gate of can_apply_currency uses the current rarity, whose caps are
zero — while apply_currency succeeds, because check_requirements evaluates
the same gate against the target rarity.  A false can_apply therefore
coexists with a successful apply of the same currency to the same item. -/
theorem c3_can_apply_counterexample :
    canApplyCurrency cfgA ((generate cfgA "b" 7).getD arbitraryItem) "slot" =
      false ∧
    (applyCurrencyPure cfgA ((generate cfgA "b" 7).getD arbitraryItem)
        "slot").isOk = true := ⟨rfl, rfl⟩

/-- C3 (amended): can_apply_currency returns true iff the currency exists
and the rarity gate, the has-affix gate and the slot gate at the item's
current rarity all pass; it coincides with the success of the
check_requirements gate exactly when the currency neither changes rarity,
nor clears affixes, nor adds specific affixes, nor adds or rerolls random
affixes (the cases where check_requirements consults the target rarity, the
specific-affix pre-check or the pool list). -/
theorem c3_can_apply_amended (g : Config) (it : Item) (currencyId : String)
    (cur : CurrencyConfig) (hcur : g.getCurrency currencyId = some cur)
    (h1 : cur.effects.setRarity = none) (h2 : cur.effects.clearAffixes = false)
    (h3 : cur.effects.addSpecificAffix = []) (h4 : cur.effects.addAffixes = none)
    (h5 : cur.effects.rerollAffixes = none) :
    canApplyCurrency g it currencyId = true ↔
      checkRequirements g it.ctx it.craft cur = none := by
  unfold canApplyCurrency checkRequirements
  rw [hcur]
  simp only [h1, h2, h3, h4, h5, Option.getD_none, Option.isSome_none,
    List.isEmpty_nil, Item.craft_rarity, Item.craft_prefixes,
    Item.craft_suffixes]
  by_cases hr1 : cur.requires.rarities = [] <;>
  by_cases hr2 : it.rarity ∈ cur.requires.rarities <;>
  by_cases hp : it.prefixes = [] <;>
  by_cases hsf : it.suffixes = [] <;>
  by_cases hha : cur.requires.hasAffix = true <;>
  by_cases hhs : cur.requires.hasAffixSlot = true <;>
    simp [hr1, hr2, hp, hsf, hha, hhs, Item.canAddPrefixSlot,
      Item.canAddSuffixSlot, Bool.not_eq_true] <;>
    omega

/-- C3 witness: the amended equivalence evaluated at the remove currency of
the test configuration. -/
theorem c3_can_apply_amended_witness :
    (canApplyCurrency cfgA ((generate cfgA "b" 7).getD arbitraryItem) "rem" =
        true ↔
      checkRequirements cfgA ((generate cfgA "b" 7).getD arbitraryItem).ctx
        ((generate cfgA "b" 7).getD arbitraryItem).craft
        ((cfgA.getCurrency "rem").getD ⟨"", "", "", "", reqNone, fxNone⟩) =
        none) :=
  c3_can_apply_amended cfgA ((generate cfgA "b" 7).getD arbitraryItem) "rem"
    ((cfgA.getCurrency "rem").getD ⟨"", "", "", "", reqNone, fxNone⟩)
    (by rfl) (by rfl) (by rfl) (by rfl) (by rfl) (by rfl)

/-- C6: the candidate list of a weighted affix roll is the affix table's
iteration order, not sorted by id ascending: with the table iterating as
b6, a6 the candidate ids come out in that unsorted order, and two
configurations with identical table contents (the lookup of every id
agrees) but opposite iteration orders make the same roll, from the same RNG
state, select different affixes.  The selection outcome therefore depends on
the hash map's iteration order, which in the source is unstable across
processes. -/
theorem c6_candidate_order_unsorted :
    (cfgC6.getValidAffixesFromPools .ring .pre []).map (·.id) = ["b6", "a6"] ∧
    (∀ id, cfgC6.getAffix id = cfgC6r.getAffix id) ∧
    ((rollAffixFromPools cfgC6 .ring [] .pre [] [] 0 ⟨0, 0⟩).1.map
      (·.affixId)) = some "a6" ∧
    ((rollAffixFromPools cfgC6r .ring [] .pre [] [] 0 ⟨0, 0⟩).1.map
      (·.affixId)) = some "b6" := by
  refine ⟨rfl, ?_, rfl, rfl⟩
  intro id
  by_cases h1 : id = "b6"
  · subst h1; rfl
  · by_cases h2 : id = "a6"
    · subst h2; rfl
    · have hb : ("b6" == id) = false := by
        rw [beq_eq_false_iff_ne]
        exact fun h => h1 h.symm
      have ha : ("a6" == id) = false := by
        rw [beq_eq_false_iff_ne]
        exact fun h => h2 h.symm
      simp [Config.getAffix, cfgC6, cfgC6r, affixA6, affixB6, List.find?,
        hb, ha]

/-- C7 counterexample: replaying the currency `halfway` (set rarity to
magic, then remove one affix) over a fresh normal item errors mid-pipeline
with NoAffixesToRemove, yet the reconstructed item keeps the rarity change
the earlier stage made: the error is not a no-op on the item's derived
fields, which before the operation were those of the normal item. -/
theorem c7_error_not_noop_counterexample :
    (applyCurrency cfgA ((generate cfgA "b" 0).getD arbitraryItem)
        ((cfgA.getCurrency "halfway").getD ⟨"", "", "", "", reqNone, fxNone⟩)
        (replayRng cfgA ((generate cfgA "b" 0).getD arbitraryItem))).1 =
      some CurrencyError.noAffixesToRemove ∧
    (reconstruct cfgA "b" 0 [.currency "halfway"]).map (·.rarity) =
      some .magic ∧
    (generate cfgA "b" 0).map (·.rarity) = some .normal :=
  ⟨rfl, rfl, rfl⟩

/-- C7 (amended): during reconstruction an erroring currency is ignored but
the item keeps every mutation made by the pipeline stages that ran before
the failing one; only a failure of the up-front requirements check leaves
the item (and the RNG) exactly as they were, and operations naming unknown
currency ids are skipped outright. -/
theorem c7_error_semantics (g : Config) (it : Item) (cur : CurrencyConfig)
    (rng : Rng) (e : CurrencyError) (currencyId : String)
    (rest : List Operation) :
    (checkRequirements g it.ctx it.craft cur = some e →
      applyCurrency g it cur rng = (some e, it, rng)) ∧
    (g.getCurrency currencyId = none →
      applyOps g it rng (.currency currencyId :: rest) =
        applyOps g it rng rest) := by
  constructor
  · intro h
    unfold applyCurrency applyCurrencyCore
    rw [h]
    simp
  · intro h
    simp only [applyOps, h]

/-- C7 witness: the amended error semantics evaluated at the rarity-gated
currency `gate` on a fresh normal item, and at an unknown currency id. -/
theorem c7_error_semantics_witness :
    applyCurrency cfgA ((generate cfgA "b" 0).getD arbitraryItem)
        ((cfgA.getCurrency "gate").getD ⟨"", "", "", "", reqNone, fxNone⟩)
        ⟨0, 5⟩ =
      (some (CurrencyError.invalidRarity [.rare] .normal),
        (generate cfgA "b" 0).getD arbitraryItem, ⟨0, 5⟩) ∧
    applyOps cfgA ((generate cfgA "b" 0).getD arbitraryItem) ⟨0, 5⟩
        [.currency "nope"] =
      applyOps cfgA ((generate cfgA "b" 0).getD arbitraryItem) ⟨0, 5⟩ [] :=
  ⟨(c7_error_semantics cfgA ((generate cfgA "b" 0).getD arbitraryItem)
      ((cfgA.getCurrency "gate").getD ⟨"", "", "", "", reqNone, fxNone⟩)
      ⟨0, 5⟩ (CurrencyError.invalidRarity [.rare] .normal) "nope" []).1 (by rfl),
   (c7_error_semantics cfgA ((generate cfgA "b" 0).getD arbitraryItem)
      ((cfgA.getCurrency "gate").getD ⟨"", "", "", "", reqNone, fxNone⟩)
      ⟨0, 5⟩ (CurrencyError.invalidRarity [.rare] .normal) "nope" []).2 (by rfl)⟩

/-- C9 counterexample: in the test recipe the mapping is direct with
influence one half; on the concrete item the snapshot value is 4 (already
inside the mod range, so mapped = 4) and the freshly drawn random value is
87, so the blend is (1*4 + 1*87)/2 = 91/2.  The code emits the f32-to-i32
truncation 45, while the claim's round(91/2) is 46: the emitted value is
the truncation, not the rounding, of the blend. -/
theorem c9_blend_counterexample :
    (genRangeInt 0 100 ⟨0, 1⟩).1 = 87 ∧
    ((applyCurrencyPure cfgC9 itemC9 "c9").toOption.map
      (fun it => it.prefixes.map (·.value))) = some [45] ∧
    roundHalfUp (1 * 4 + (2 - 1) * 87) 2 = 46 ∧ (45 : Int) ≠ 46 :=
  ⟨rfl, rfl, by decide, by decide⟩

/-- C9 (amended): for a unique mod index targeted by a non-random mapping
whose source stat is in the snapshot, the emitted value is the mapped value
when the influence is at least one, the random draw when it is at most
zero, and otherwise the blend influence*mapped + (1-influence)*r computed
exactly and then truncated toward zero (the f32 `as i32` cast), clamped
into the mod's range — truncation, not rounding. -/
theorem c9_blend_semantics (g : Config) (recipe : UniqueRecipeConfig)
    (snap : List (StatType × (Int × String))) (i : Nat) (mc : UniqueModConfig)
    (r : Int) (mapping : RecipeMapping) (origValue : Int) (affixId : String)
    (hm : recipe.mappings.find? (·.toModIndex == i) = some mapping)
    (hmode : mapping.mode ≠ .random)
    (hsnap : snapLookup snap mapping.fromStat = some (origValue, affixId))
    (hden : 0 < mapping.influence.den) :
    uniqueModValue g recipe snap i mc r =
      if mapping.influence.den ≤ mapping.influence.num then
        mappedValueOf g mc mapping.mode origValue affixId
      else if mapping.influence.num ≤ 0 then r
      else
        intClamp (Int.tdiv (mapping.influence.num *
            mappedValueOf g mc mapping.mode origValue affixId +
            (mapping.influence.den - mapping.influence.num) * r)
          mapping.influence.den) mc.min mc.max := by
  unfold uniqueModValue
  simp only [hm]
  cases hmode' : mapping.mode with
  | random => exact absurd hmode' hmode
  | direct =>
    simp only [hmode', hsnap]
    unfold FloatVal.clampUnit
    by_cases h0 : mapping.influence.num ≤ 0
    · have h1 : ¬ mapping.influence.den ≤ mapping.influence.num := by omega
      simp [h0, h1, hmode']
    · by_cases h2 : mapping.influence.den ≤ mapping.influence.num
      · simp [h0, h2, hmode']
      · simp [h0, h2, hmode']
  | percentage =>
    simp only [hmode', hsnap]
    unfold FloatVal.clampUnit
    by_cases h0 : mapping.influence.num ≤ 0
    · have h1 : ¬ mapping.influence.den ≤ mapping.influence.num := by omega
      simp [h0, h1, hmode']
    · by_cases h2 : mapping.influence.den ≤ mapping.influence.num
      · simp [h0, h2, hmode']
      · simp [h0, h2, hmode']

/-- C9 witness: the amended blend semantics evaluated at the test recipe's
mapping (direct, influence 1/2), snapshot value 4 and random draw 87. -/
theorem c9_blend_semantics_witness :
    uniqueModValue cfgC9 ⟨"u9", "b9", 100, [⟨.addedLife, none, 1, 99⟩],
        [⟨.addedLife, 0, .direct, ⟨1, 2⟩⟩]⟩
      [(.addedLife, (4, "a9"))] 0 ⟨.addedLife, 0, 100⟩ 87 =
      if (2 : Int) ≤ 1 then
        mappedValueOf cfgC9 ⟨.addedLife, 0, 100⟩ .direct 4 "a9"
      else if (1 : Int) ≤ 0 then 87
      else
        intClamp (Int.tdiv (1 * mappedValueOf cfgC9 ⟨.addedLife, 0, 100⟩
          .direct 4 "a9" + (2 - 1) * 87) 2) 0 100 :=
  c9_blend_semantics cfgC9 ⟨"u9", "b9", 100, [⟨.addedLife, none, 1, 99⟩],
      [⟨.addedLife, 0, .direct, ⟨1, 2⟩⟩]⟩
    [(.addedLife, (4, "a9"))] 0 ⟨.addedLife, 0, 100⟩ 87
    ⟨.addedLife, 0, .direct, ⟨1, 2⟩⟩ 4 "a9" (by rfl) (by decide) (by rfl)
    (by decide)

/-- The weighted-selection loop only returns elements of its list. -/
theorem pickWeightedBy_mem {α : Type} (f : α → Nat) :
    ∀ (l : List α) (roll : Nat) (a : α),
    pickWeightedBy f l roll = some a → a ∈ l
  | [], _, _, h => by simp [pickWeightedBy] at h
  | b :: l, roll, a, h => by
    unfold pickWeightedBy at h
    split at h
    · exact (Option.some.inj h) ▸ List.mem_cons_self ..
    · exact List.mem_cons_of_mem _ (pickWeightedBy_mem f l _ a h)

/-- Erasing an index never lengthens a list. -/
theorem length_eraseIdx_le {α : Type} (l : List α) (i : Nat) :
    (l.eraseIdx i).length ≤ l.length :=
  (l.eraseIdx_sublist i).length_le

/-- The slot-cap invariant on the craft view: each modifier list is within
its rarity cap. -/
def slotInvS (s : CraftState) : Prop :=
  s.prefixes.length ≤ s.rarity.maxPrefixes ∧
    s.suffixes.length ≤ s.rarity.maxSuffixes

/-- The slot-cap invariant on a full item. -/
def slotInv (it : Item) : Prop :=
  it.prefixes.length ≤ it.rarity.maxPrefixes ∧
    it.suffixes.length ≤ it.rarity.maxSuffixes

instance (it : Item) : Decidable (slotInv it) := by
  unfold slotInv; infer_instance

theorem slotInv_iff_craft (it : Item) : slotInv it ↔ slotInvS it.craft :=
  Iff.rfl

theorem slotInvS_removeRandomAffix (s : CraftState) (rng : Rng)
    (h : slotInvS s) : slotInvS (removeRandomAffix s rng).2.1 := by
  unfold removeRandomAffix
  dsimp only
  obtain ⟨h1, h2⟩ := h
  split
  · exact ⟨h1, h2⟩
  · split
    · exact ⟨le_trans (length_eraseIdx_le _ _) h1, h2⟩
    · exact ⟨h1, le_trans (length_eraseIdx_le _ _) h2⟩

theorem slotInvS_removeLoop :
    ∀ (n : Nat) (s : CraftState) (rng : Rng), slotInvS s →
    slotInvS (removeLoop n s rng).2.1
  | 0, s, rng, h => h
  | n + 1, s, rng, h => by
    unfold removeLoop
    have h1 := slotInvS_removeRandomAffix s rng h
    split
    next e s' rng' heq => rw [heq] at h1; exact h1
    next e s' rng' heq =>
      rw [heq] at h1
      exact slotInvS_removeLoop n s' rng' h1

theorem slotInvS_rerollRandomAffix (g : Config) (ctx : CraftCtx)
    (pools : List String) (s : CraftState) (rng : Rng) (h : slotInvS s) :
    slotInvS (rerollRandomAffix g ctx pools s rng).2.1 := by
  unfold rerollRandomAffix
  dsimp only
  obtain ⟨h1, h2⟩ := h
  split
  · exact ⟨h1, h2⟩
  · next hne =>
    simp only [beq_iff_eq] at hne
    have hlt : (genRangeNatLt (s.prefixes.length + s.suffixes.length) rng).1 <
        s.prefixes.length + s.suffixes.length := by
      unfold genRangeNatLt Rng.next
      exact Nat.mod_lt _ (Nat.pos_of_ne_zero hne)
    split
    · next hidx =>
      have herase : (s.prefixes.eraseIdx
          (genRangeNatLt (s.prefixes.length + s.suffixes.length) rng).1).length =
          s.prefixes.length - 1 := by
        rw [List.length_eraseIdx]
        simp [hidx]
      split
      · next m heq =>
        refine ⟨?_, h2⟩
        simp only [List.length_append, List.length_cons, List.length_nil,
          herase]
        omega
      · exact ⟨le_trans (length_eraseIdx_le _ _) h1, h2⟩
    · next hidx =>
      have herase : (s.suffixes.eraseIdx
          ((genRangeNatLt (s.prefixes.length + s.suffixes.length) rng).1 -
            s.prefixes.length)).length = s.suffixes.length - 1 := by
        rw [List.length_eraseIdx]
        have hx : (genRangeNatLt (s.prefixes.length + s.suffixes.length) rng).1 -
            s.prefixes.length < s.suffixes.length := by omega
        simp [hx]
      split
      · next m heq =>
        refine ⟨h1, ?_⟩
        simp only [List.length_append, List.length_cons, List.length_nil,
          herase]
        omega
      · exact ⟨h1, le_trans (length_eraseIdx_le _ _) h2⟩

theorem slotInvS_rerollLoop (g : Config) (ctx : CraftCtx) (pools : List String) :
    ∀ (n : Nat) (s : CraftState) (rng : Rng), slotInvS s →
    slotInvS (rerollLoop g ctx pools n s rng).2.1
  | 0, s, rng, h => h
  | n + 1, s, rng, h => by
    unfold rerollLoop
    have h1 := slotInvS_rerollRandomAffix g ctx pools s rng h
    split
    next e s' rng' heq => rw [heq] at h1; exact h1
    next e s' rng' heq =>
      rw [heq] at h1
      exact slotInvS_rerollLoop g ctx pools n s' rng' h1

theorem chooseAffixType_spec (canP canS : Bool) (rng : Rng) (ty : AffixType)
    (h : (chooseAffixType canP canS rng).1 = some ty) :
    (ty = .pre → canP = true) ∧ (ty = .suf → canS = true) := by
  cases canP <;> cases canS <;> simp only [chooseAffixType] at h
  · exact absurd h (by simp)
  · cases Option.some.inj h
    exact ⟨(fun hx => nomatch hx), fun _ => rfl⟩
  · cases Option.some.inj h
    exact ⟨fun _ => rfl, (fun hx => nomatch hx)⟩
  · exact ⟨fun _ => rfl, fun _ => rfl⟩

theorem slotInvS_pushMod (s : CraftState) (ty : AffixType) (m : Modifier)
    (h : slotInvS s) (hp : ty = .pre → s.canAddPrefixSlot = true)
    (hs : ty = .suf → s.canAddSuffixSlot = true) :
    slotInvS (s.pushMod ty m) := by
  obtain ⟨h1, h2⟩ := h
  cases ty with
  | pre =>
    have hx := hp rfl
    simp only [CraftState.canAddPrefixSlot, decide_eq_true_eq] at hx
    refine ⟨?_, h2⟩
    simp only [CraftState.pushMod, List.length_append, List.length_cons,
      List.length_nil]
    omega
  | suf =>
    have hx := hs rfl
    simp only [CraftState.canAddSuffixSlot, decide_eq_true_eq] at hx
    refine ⟨h1, ?_⟩
    simp only [CraftState.pushMod, List.length_append, List.length_cons,
      List.length_nil]
    omega

theorem slotInvS_addRandomAffix (g : Config) (ctx : CraftCtx)
    (pools : List String) (s : CraftState) (rng : Rng) (h : slotInvS s) :
    slotInvS (addRandomAffix g ctx pools s rng).2.1 := by
  unfold addRandomAffix
  dsimp only
  split
  · exact h
  · cases hchoose : (chooseAffixType s.canAddPrefixSlot s.canAddSuffixSlot rng).1 with
    | none => simp only [hchoose]; exact h
    | some ty =>
      simp only [hchoose]
      obtain ⟨hp, hs⟩ := chooseAffixType_spec _ _ rng ty hchoose
      cases hroll : (rollAffixFromPools g ctx.itemClass ctx.tags ty
          s.existingIds pools ctx.requirements.level
          (chooseAffixType s.canAddPrefixSlot s.canAddSuffixSlot rng).2).1 with
      | some m =>
        simp only [hroll]
        exact slotInvS_pushMod s ty m h hp hs
      | none =>
        simp only [hroll]
        split
        · next hother =>
          cases hroll2 : (rollAffixFromPools g ctx.itemClass ctx.tags ty.other
              s.existingIds pools ctx.requirements.level
              (rollAffixFromPools g ctx.itemClass ctx.tags ty
                s.existingIds pools ctx.requirements.level
                (chooseAffixType s.canAddPrefixSlot s.canAddSuffixSlot rng).2).2).1 with
          | some m =>
            simp only [hroll2]
            refine slotInvS_pushMod s ty.other m h ?_ ?_ <;>
              intro hx <;> rw [hx] at hother <;> exact hother
          | none => simp only [hroll2]; exact h
        · exact h

theorem slotInvS_addLoop (g : Config) (ctx : CraftCtx) (pools : List String) :
    ∀ (n : Nat) (s : CraftState) (rng : Rng), slotInvS s →
    slotInvS (addLoop g ctx pools n s rng).1
  | 0, s, rng, h => h
  | n + 1, s, rng, h => by
    unfold addLoop
    have h1 := slotInvS_addRandomAffix g ctx pools s rng h
    split
    next s' rng' heq => rw [heq] at h1; exact h1
    next s' rng' heq =>
      rw [heq] at h1
      exact slotInvS_addLoop g ctx pools n s' rng' h1

theorem slotInvS_stageAddAffixes (g : Config) (ctx : CraftCtx)
    (effects : CurrencyEffects) (s : CraftState) (rng : Rng)
    (h : slotInvS s) : slotInvS (stageAddAffixes g ctx effects s rng).1 := by
  unfold stageAddAffixes
  split
  · exact h
  · dsimp only
    split
    · exact slotInvS_addLoop g ctx effects.affixPools _ s _ h
    · exact slotInvS_addLoop g ctx effects.affixPools _ s _ h

theorem slotInvS_addAffixById (g : Config) (ctx : CraftCtx) (s : CraftState)
    (affixId : String) (tier : Option Nat) (rng : Rng) (h : slotInvS s)
    (hguard : ∀ affix, g.getAffix affixId = some affix →
      (affix.affixType = .pre → s.canAddPrefixSlot = true) ∧
      (affix.affixType = .suf → s.canAddSuffixSlot = true)) :
    slotInvS (addAffixById g ctx s affixId tier rng).2.1 := by
  unfold addAffixById
  cases haff : g.getAffix affixId with
  | none => simp only [haff]; exact h
  | some affix =>
    simp only [haff]
    split
    · exact h
    · next tierCfg rng2 =>
      obtain ⟨hp, hs⟩ := hguard affix haff
      exact slotInvS_pushMod s affix.affixType _ h hp hs

theorem specificCandidateOk_slot (g : Config) (ctx : CraftCtx)
    (s : CraftState) (existing : List String) (c : SpecificAffix)
    (hok : specificCandidateOk g ctx s existing c = true) :
    ∀ affix, g.getAffix c.id = some affix →
      (affix.affixType = .pre → s.canAddPrefixSlot = true) ∧
      (affix.affixType = .suf → s.canAddSuffixSlot = true) := by
  intro affix haff
  unfold specificCandidateOk at hok
  simp only [haff] at hok
  split at hok
  · exact absurd hok (by simp)
  · split at hok
    · exact absurd hok (by simp)
    · cases hty : affix.affixType with
      | pre =>
        simp only [hty] at hok
        exact ⟨(fun _ => hok), (fun hx => nomatch hx)⟩
      | suf =>
        simp only [hty] at hok
        exact ⟨(fun hx => nomatch hx), (fun _ => hok)⟩

theorem slotInvS_addSpecific (g : Config) (ctx : CraftCtx) (s : CraftState)
    (candidates : List SpecificAffix) (rng : Rng) (h : slotInvS s) :
    slotInvS (addSpecificAffixFromSet g ctx s candidates rng).2.1 := by
  unfold addSpecificAffixFromSet
  dsimp only
  split
  · exact h
  · next c0 rest heq =>
    have hsel : ∀ c ∈ c0 :: rest, ∀ rng2 : Rng,
        slotInvS (addAffixById g ctx s c.id c.tier rng2).2.1 := by
      intro c hc rng2
      have hmem : c ∈ candidates.filter
          (specificCandidateOk g ctx s s.existingIds) := heq ▸ hc
      have hok := List.of_mem_filter hmem
      exact slotInvS_addAffixById g ctx s c.id c.tier rng2 h
        (specificCandidateOk_slot g ctx s s.existingIds c hok)
    split
    · exact hsel c0 (List.mem_cons_self ..) rng
    · cases hpick : pickWeightedBy (·.weight) (c0 :: rest)
          (genRangeNatLt (((c0 :: rest).map (·.weight)).sum) rng).1 with
      | some c =>
        simp only [hpick, Option.getD_some]
        exact hsel c (pickWeightedBy_mem _ _ _ _ hpick) _
      | none =>
        simp only [hpick, Option.getD_none]
        exact hsel c0 (List.mem_cons_self ..) _

theorem stageSetRarity_none (ctx : CraftCtx) (effects : CurrencyEffects)
    (s : CraftState) (rng : Rng) (h : effects.setRarity = none) :
    stageSetRarity ctx effects s rng = (s, rng) := by
  unfold stageSetRarity
  rw [h]

theorem slotInvS_stageClear (ctx : CraftCtx) (effects : CurrencyEffects)
    (s : CraftState) (h : slotInvS s) : slotInvS (stageClear ctx effects s) := by
  unfold stageClear
  split
  · dsimp only
    split
    · exact ⟨Nat.zero_le _, Nat.zero_le _⟩
    · exact ⟨Nat.zero_le _, Nat.zero_le _⟩
  · exact h

theorem slotInvS_andThenE (r : Option CurrencyError × CraftState × Rng)
    (f : CraftState → Rng → Option CurrencyError × CraftState × Rng)
    (hr : slotInvS r.2.1)
    (hf : ∀ s rng, slotInvS s → slotInvS (f s rng).2.1) :
    slotInvS (andThenE r f).2.1 := by
  unfold andThenE
  rcases r with ⟨e, s, rng⟩
  cases e with
  | some err => exact hr
  | none => exact hf s rng hr

theorem slotInvS_core (g : Config) (ctx : CraftCtx) (cur : CurrencyConfig)
    (s : CraftState) (rng : Rng) (h1 : cur.effects.setRarity = none)
    (h2 : cur.effects.tryUnique = false) (h : slotInvS s) :
    slotInvS (applyCurrencyCore g ctx cur s rng).2.1 := by
  unfold applyCurrencyCore
  split
  · exact h
  · dsimp only
    rw [stageSetRarity_none ctx cur.effects s rng h1]
    have hclear := slotInvS_stageClear ctx cur.effects s h
    refine slotInvS_andThenE _ _ ?_ ?_
    · split
      · exact slotInvS_removeLoop _ _ _ hclear
      · exact hclear
    · intro s3 rng3 h3
      refine slotInvS_andThenE _ _ ?_ ?_
      · split
        · exact slotInvS_rerollLoop g ctx cur.effects.affixPools _ _ _ h3
        · exact h3
      · intro s4 rng4 h4
        dsimp only
        have h5 := slotInvS_stageAddAffixes g ctx cur.effects s4 rng4 h4
        refine slotInvS_andThenE _ _ ?_ ?_
        · split
          · exact slotInvS_addSpecific g ctx _ _ _ h5
          · exact h5
        · intro s6 rng6 h6
          rw [h2]
          simp only [Bool.false_eq_true, if_false]
          exact h6

theorem rollBaseItem_pair (base : BaseTypeConfig) (seed : Nat) (rng : Rng) :
    rollBaseItem base seed rng =
      ({ newNormalItem base seed with
          implicit := (rollImplicitCfg base rng).1
          defenses := (rollDefensesCfg base (newNormalItem base seed).defenses
            (rollImplicitCfg base rng).2).1 },
        (rollDefensesCfg base (newNormalItem base seed).defenses
          (rollImplicitCfg base rng).2).2) := by
  unfold rollBaseItem
  rcases hx : rollImplicitCfg base rng with ⟨imp, r1⟩
  rcases hy : rollDefensesCfg base (newNormalItem base seed).defenses r1 with
    ⟨defs, r2⟩
  simp [hx, hy]

theorem rollBaseItem_craft (base : BaseTypeConfig) (seed : Nat) (rng : Rng) :
    (rollBaseItem base seed rng).1.craft = (newNormalItem base seed).craft := by
  rw [rollBaseItem_pair]
  rfl

theorem rollBaseItem_ctx (base : BaseTypeConfig) (seed : Nat) (rng : Rng) :
    (rollBaseItem base seed rng).1.ctx = (newNormalItem base seed).ctx := by
  rw [rollBaseItem_pair]
  rfl

theorem rollBaseItem_operations (base : BaseTypeConfig) (seed : Nat) (rng : Rng) :
    (rollBaseItem base seed rng).1.operations = [] := by
  rw [rollBaseItem_pair]
  rfl

theorem rollBaseItem_seed (base : BaseTypeConfig) (seed : Nat) (rng : Rng) :
    (rollBaseItem base seed rng).1.seed = seed := by
  rw [rollBaseItem_pair]
  rfl

theorem generate_eq (g : Config) (baseTypeId : String) (seed : Nat) (it : Item)
    (h : generate g baseTypeId seed = some it) :
    ∃ base, g.getBase baseTypeId = some base ∧
      it = (rollBaseItem base seed ⟨seed, 0⟩).1 := by
  unfold generate at h
  cases hb : g.getBase baseTypeId with
  | none => rw [hb] at h; cases h
  | some base =>
    rw [hb, Option.map_some'] at h
    exact ⟨base, rfl, (Option.some.inj h).symm⟩

/-- C5 counterexample: generating the two-mod unique realizes both unique
mods as prefixes on a unique-rarity item, whose stated prefix cap is zero:
the slot-cap invariant fails after unique generation. -/
theorem c5_slot_caps_counterexample :
    (generateUnique cfgU "u" 0).map (fun it => it.prefixes.length) = some 2 ∧
    (generateUnique cfgU "u" 0).map (fun it => it.rarity.maxPrefixes) =
      some 0 ∧
    ¬ (∀ it, generateUnique cfgU "u" 0 = some it → slotInv it) := by
  refine ⟨rfl, rfl, fun hall => ?_⟩
  have := hall ((generateUnique cfgU "u" 0).getD arbitraryItem) (by rfl)
  exact absurd this (by decide)

/-- C5 (amended): the slot caps (normal=0, magic=1, rare=3, unique=0) hold
for every item generate produces, and they are preserved by every
successful currency application that neither sets rarity nor performs a
unique transformation; they are violated by unique generation and
transformation (whose mods are realized as prefixes against a zero cap, see
the counterexample) and are not protected against a rarity change that
lowers the caps below the current counts. -/
theorem c5_slot_caps (g : Config) :
    (∀ baseTypeId seed it, generate g baseTypeId seed = some it → slotInv it) ∧
    (∀ it currencyId cur it', g.getCurrency currencyId = some cur →
      cur.effects.setRarity = none → cur.effects.tryUnique = false →
      slotInv it → applyCurrencyPure g it currencyId = .ok it' →
      slotInv it') := by
  constructor
  · intro baseTypeId seed it h
    obtain ⟨base, hb, rfl⟩ := generate_eq g baseTypeId seed it h
    rw [slotInv_iff_craft, rollBaseItem_craft]
    exact ⟨Nat.zero_le _, Nat.zero_le _⟩
  · intro it currencyId cur it' hcur h1 h2 hinv hok
    simp only [applyCurrencyPure, hcur] at hok
    cases he : (applyCurrency g it cur (replayRng g it)).1 with
    | some err => rw [he] at hok; simp at hok
    | none =>
      rw [he] at hok
      have hok2 := Except.ok.inj hok
      rw [← hok2]
      exact slotInvS_core g it.ctx cur it.craft (replayRng g it) h1 h2 hinv

/-- An item produced by transmuting the fresh test item to magic rarity. -/
def itemMagicA : Item :=
  (applyCurrencyPure cfgA ((generate cfgA "b" 7).getD arbitraryItem)
    "t").toOption.getD arbitraryItem

/-- C5 witness: the slot caps evaluated on the generated test item and
through a successful random-affix addition on the magic test item. -/
theorem c5_slot_caps_witness :
    slotInv ((generate cfgA "b" 7).getD arbitraryItem) ∧
    slotInv ((applyCurrencyPure cfgA itemMagicA "adda").toOption.getD
      arbitraryItem) :=
  ⟨(c5_slot_caps cfgA).1 "b" 7 ((generate cfgA "b" 7).getD arbitraryItem)
      (by rfl),
   (c5_slot_caps cfgA).2 itemMagicA "adda"
      ((cfgA.getCurrency "adda").getD ⟨"", "", "", "", reqNone, fxNone⟩)
      ((applyCurrencyPure cfgA itemMagicA "adda").toOption.getD arbitraryItem)
      (by rfl) (by rfl) (by rfl) (by decide) (by rfl)⟩

/-- A synthetic unique-mod id: the source builds these as
`format!("unique_{}", unique_id)`. -/
def isUniqueModId (s : String) : Prop := ∃ u, s = "unique_" ++ u

/-- Two equal ids are tolerated only when they are a synthetic unique-mod
id; distinct ids are always tolerated. -/
def idR (a b : String) : Prop := a = b → isUniqueModId a

/-- The affix-id invariant on the craft view: any two modifiers (prefixes
and suffixes together) with the same affix id carry a synthetic
unique-mod id. -/
def dupOnlyUniqueS (s : CraftState) : Prop := List.Pairwise idR s.existingIds

/-- The affix-id invariant on a full item. -/
def dupOnlyUnique (it : Item) : Prop :=
  List.Pairwise idR ((it.prefixes ++ it.suffixes).map (·.affixId))

theorem dupOnlyUnique_iff_craft (it : Item) :
    dupOnlyUnique it ↔ dupOnlyUniqueS it.craft := Iff.rfl

theorem pairwise_idR_of_all_unique :
    ∀ (l : List String), (∀ a ∈ l, isUniqueModId a) → List.Pairwise idR l
  | [], _ => List.Pairwise.nil
  | a :: l, h =>
    List.Pairwise.cons (fun _ _ _ => h a (List.mem_cons_self ..))
      (pairwise_idR_of_all_unique l fun b hb => h b (List.mem_cons_of_mem _ hb))

theorem pairwise_idR_insert_pre (idsP idsS : List String) (x : String)
    (h : List.Pairwise idR (idsP ++ idsS)) (hx : x ∉ idsP ++ idsS) :
    List.Pairwise idR ((idsP ++ [x]) ++ idsS) := by
  rw [List.pairwise_append] at h ⊢
  obtain ⟨hP, hS, hcross⟩ := h
  rw [List.mem_append] at hx
  refine ⟨?_, hS, ?_⟩
  · rw [List.pairwise_append]
    refine ⟨hP, List.pairwise_singleton idR x, ?_⟩
    intro a ha b hb
    rw [List.mem_singleton] at hb
    subst hb
    exact fun hab => absurd (hab ▸ ha) (fun hc => hx (Or.inl hc))
  · intro a ha b hb
    rw [List.mem_append, List.mem_singleton] at ha
    rcases ha with ha | rfl
    · exact hcross a ha b hb
    · exact fun hab => absurd (hab ▸ hb) (fun hc => hx (Or.inr hc))

theorem pairwise_idR_insert_suf (idsP idsS : List String) (x : String)
    (h : List.Pairwise idR (idsP ++ idsS)) (hx : x ∉ idsP ++ idsS) :
    List.Pairwise idR (idsP ++ (idsS ++ [x])) := by
  rw [List.pairwise_append] at h ⊢
  obtain ⟨hP, hS, hcross⟩ := h
  rw [List.mem_append] at hx
  refine ⟨hP, ?_, ?_⟩
  · rw [List.pairwise_append]
    refine ⟨hS, List.pairwise_singleton idR x, ?_⟩
    intro a ha b hb
    rw [List.mem_singleton] at hb
    subst hb
    exact fun hab => absurd (hab ▸ ha) (fun hc => hx (Or.inr hc))
  · intro a ha b hb
    rw [List.mem_append, List.mem_singleton] at hb
    rcases hb with hb | rfl
    · exact hcross a ha b hb
    · exact fun hab => absurd (hab.symm ▸ ha) (fun hc => hx (Or.inl hc))

theorem dupOnlyUniqueS_erase_pre (s : CraftState) (i : Nat)
    (h : dupOnlyUniqueS s) :
    dupOnlyUniqueS { s with prefixes := s.prefixes.eraseIdx i } := by
  refine List.Pairwise.sublist ?_ h
  exact List.Sublist.map _
    (List.Sublist.append (List.eraseIdx_sublist _ i) (List.Sublist.refl _))

theorem dupOnlyUniqueS_erase_suf (s : CraftState) (i : Nat)
    (h : dupOnlyUniqueS s) :
    dupOnlyUniqueS { s with suffixes := s.suffixes.eraseIdx i } := by
  refine List.Pairwise.sublist ?_ h
  exact List.Sublist.map _
    (List.Sublist.append (List.Sublist.refl _) (List.eraseIdx_sublist _ i))

theorem dupOnlyUniqueS_pushMod (s : CraftState) (ty : AffixType)
    (m : Modifier) (h : dupOnlyUniqueS s)
    (hm : m.affixId ∉ s.existingIds) : dupOnlyUniqueS (s.pushMod ty m) := by
  have hx : m.affixId ∉ s.prefixes.map (·.affixId) ++ s.suffixes.map (·.affixId) := by
    intro hc
    exact hm (by simpa [CraftState.existingIds, List.map_append] using hc)
  have h' : List.Pairwise idR
      (s.prefixes.map (·.affixId) ++ s.suffixes.map (·.affixId)) := by
    simpa [dupOnlyUniqueS, CraftState.existingIds, List.map_append] using h
  cases ty with
  | pre =>
    have := pairwise_idR_insert_pre _ _ m.affixId h' hx
    simpa [dupOnlyUniqueS, CraftState.existingIds, CraftState.pushMod,
      List.map_append] using this
  | suf =>
    have := pairwise_idR_insert_suf _ _ m.affixId h' hx
    simpa [dupOnlyUniqueS, CraftState.existingIds, CraftState.pushMod] using this

/-- A successful weighted affix roll never returns an affix whose id is in
the excluded list: the candidate set is filtered on exactly that. -/
theorem rollAffixFromPools_fresh (g : Config) (cls : ItemClass)
    (itemTags : List Tag) (ty : AffixType) (existingAffixIds : List String)
    (pools : List String) (itemLevel : Nat) (rng : Rng) (m : Modifier)
    (h : (rollAffixFromPools g cls itemTags ty existingAffixIds pools
      itemLevel rng).1 = some m) : m.affixId ∉ existingAffixIds := by
  unfold rollAffixFromPools at h
  dsimp only at h
  split at h
  · cases h
  · split at h
    · cases h
    · split at h
      · cases h
      · next affix hpick =>
        have hmem := pickWeightedBy_mem _ _ _ _ hpick
        have hmem2 := List.mem_of_mem_filter hmem
        have hfresh := List.of_mem_filter hmem2
        simp only [Bool.not_eq_true'] at hfresh
        split at h
        · cases h
        · split at h
          · cases h
          · split at h
            · cases h
            · next tier hpt =>
              have him : m.affixId = affix.id := by
                split at h
                · next heqmv =>
                  cases Option.some.inj h
                  rfl
                · cases Option.some.inj h
                  rfl
              rw [him]
              intro hc
              have hx : existingAffixIds.contains affix.id = true :=
                List.elem_iff.mpr hc
              rw [hfresh] at hx
              cases hx

theorem getAffix_id (g : Config) (affixId : String) (affix : AffixConfig)
    (h : g.getAffix affixId = some affix) : affix.id = affixId := by
  unfold Config.getAffix at h
  have := List.find?_some h
  exact beq_iff_eq.mp this

theorem dupOnlyUniqueS_removeRandomAffix (s : CraftState) (rng : Rng)
    (h : dupOnlyUniqueS s) : dupOnlyUniqueS (removeRandomAffix s rng).2.1 := by
  unfold removeRandomAffix
  dsimp only
  split
  · exact h
  · split
    · exact dupOnlyUniqueS_erase_pre s _ h
    · exact dupOnlyUniqueS_erase_suf s _ h

theorem dupOnlyUniqueS_removeLoop :
    ∀ (n : Nat) (s : CraftState) (rng : Rng), dupOnlyUniqueS s →
    dupOnlyUniqueS (removeLoop n s rng).2.1
  | 0, s, rng, h => h
  | n + 1, s, rng, h => by
    unfold removeLoop
    have h1 := dupOnlyUniqueS_removeRandomAffix s rng h
    split
    next e s' rng' heq => rw [heq] at h1; exact h1
    next e s' rng' heq =>
      rw [heq] at h1
      exact dupOnlyUniqueS_removeLoop n s' rng' h1

theorem dupOnlyUniqueS_rerollRandomAffix (g : Config) (ctx : CraftCtx)
    (pools : List String) (s : CraftState) (rng : Rng)
    (h : dupOnlyUniqueS s) :
    dupOnlyUniqueS (rerollRandomAffix g ctx pools s rng).2.1 := by
  unfold rerollRandomAffix
  dsimp only
  split
  · exact h
  · split
    · have h1 := dupOnlyUniqueS_erase_pre s
        (genRangeNatLt (s.prefixes.length + s.suffixes.length) rng).1 h
      split
      · next m heq =>
        exact dupOnlyUniqueS_pushMod _ .pre m h1
          (rollAffixFromPools_fresh _ _ _ _ _ _ _ _ _ heq)
      · exact h1
    · have h1 := dupOnlyUniqueS_erase_suf s
        ((genRangeNatLt (s.prefixes.length + s.suffixes.length) rng).1 -
          s.prefixes.length) h
      split
      · next m heq =>
        exact dupOnlyUniqueS_pushMod _ .suf m h1
          (rollAffixFromPools_fresh _ _ _ _ _ _ _ _ _ heq)
      · exact h1

theorem dupOnlyUniqueS_rerollLoop (g : Config) (ctx : CraftCtx)
    (pools : List String) :
    ∀ (n : Nat) (s : CraftState) (rng : Rng), dupOnlyUniqueS s →
    dupOnlyUniqueS (rerollLoop g ctx pools n s rng).2.1
  | 0, s, rng, h => h
  | n + 1, s, rng, h => by
    unfold rerollLoop
    have h1 := dupOnlyUniqueS_rerollRandomAffix g ctx pools s rng h
    split
    next e s' rng' heq => rw [heq] at h1; exact h1
    next e s' rng' heq =>
      rw [heq] at h1
      exact dupOnlyUniqueS_rerollLoop g ctx pools n s' rng' h1

theorem dupOnlyUniqueS_addRandomAffix (g : Config) (ctx : CraftCtx)
    (pools : List String) (s : CraftState) (rng : Rng)
    (h : dupOnlyUniqueS s) :
    dupOnlyUniqueS (addRandomAffix g ctx pools s rng).2.1 := by
  unfold addRandomAffix
  dsimp only
  split
  · exact h
  · cases hchoose : (chooseAffixType s.canAddPrefixSlot s.canAddSuffixSlot rng).1 with
    | none => simp only [hchoose]; exact h
    | some ty =>
      simp only [hchoose]
      cases hroll : (rollAffixFromPools g ctx.itemClass ctx.tags ty
          s.existingIds pools ctx.requirements.level
          (chooseAffixType s.canAddPrefixSlot s.canAddSuffixSlot rng).2).1 with
      | some m =>
        simp only [hroll]
        exact dupOnlyUniqueS_pushMod s ty m h
          (rollAffixFromPools_fresh _ _ _ _ _ _ _ _ _ hroll)
      | none =>
        simp only [hroll]
        split
        · cases hroll2 : (rollAffixFromPools g ctx.itemClass ctx.tags ty.other
              s.existingIds pools ctx.requirements.level
              (rollAffixFromPools g ctx.itemClass ctx.tags ty
                s.existingIds pools ctx.requirements.level
                (chooseAffixType s.canAddPrefixSlot s.canAddSuffixSlot rng).2).2).1 with
          | some m =>
            simp only [hroll2]
            exact dupOnlyUniqueS_pushMod s ty.other m h
              (rollAffixFromPools_fresh _ _ _ _ _ _ _ _ _ hroll2)
          | none => simp only [hroll2]; exact h
        · exact h

theorem dupOnlyUniqueS_addLoop (g : Config) (ctx : CraftCtx)
    (pools : List String) :
    ∀ (n : Nat) (s : CraftState) (rng : Rng), dupOnlyUniqueS s →
    dupOnlyUniqueS (addLoop g ctx pools n s rng).1
  | 0, s, rng, h => h
  | n + 1, s, rng, h => by
    unfold addLoop
    have h1 := dupOnlyUniqueS_addRandomAffix g ctx pools s rng h
    split
    next s' rng' heq => rw [heq] at h1; exact h1
    next s' rng' heq =>
      rw [heq] at h1
      exact dupOnlyUniqueS_addLoop g ctx pools n s' rng' h1

theorem dupOnlyUniqueS_stageAddAffixes (g : Config) (ctx : CraftCtx)
    (effects : CurrencyEffects) (s : CraftState) (rng : Rng)
    (h : dupOnlyUniqueS s) :
    dupOnlyUniqueS (stageAddAffixes g ctx effects s rng).1 := by
  unfold stageAddAffixes
  split
  · exact h
  · dsimp only
    split
    · exact dupOnlyUniqueS_addLoop g ctx effects.affixPools _ s _ h
    · exact dupOnlyUniqueS_addLoop g ctx effects.affixPools _ s _ h

theorem dupOnlyUniqueS_addAffixById (g : Config) (ctx : CraftCtx)
    (s : CraftState) (affixId : String) (tier : Option Nat) (rng : Rng)
    (h : dupOnlyUniqueS s) (hguard : affixId ∉ s.existingIds) :
    dupOnlyUniqueS (addAffixById g ctx s affixId tier rng).2.1 := by
  unfold addAffixById
  cases haff : g.getAffix affixId with
  | none => simp only [haff]; exact h
  | some affix =>
    simp only [haff]
    split
    · exact h
    · next tierCfg rng2 =>
      refine dupOnlyUniqueS_pushMod s affix.affixType _ h ?_
      have := getAffix_id g affixId affix haff
      simpa [this] using hguard

theorem specificCandidateOk_fresh (g : Config) (ctx : CraftCtx)
    (s : CraftState) (existing : List String) (c : SpecificAffix)
    (hok : specificCandidateOk g ctx s existing c = true) :
    c.id ∉ existing := by
  unfold specificCandidateOk at hok
  cases haff : g.getAffix c.id with
  | none => simp only [haff] at hok; cases hok
  | some affix =>
    simp only [haff] at hok
    split at hok
    · exact absurd hok (by simp)
    · next hcontains =>
      intro hc
      exact hcontains (List.elem_iff.mpr hc)

theorem dupOnlyUniqueS_addSpecific (g : Config) (ctx : CraftCtx)
    (s : CraftState) (candidates : List SpecificAffix) (rng : Rng)
    (h : dupOnlyUniqueS s) :
    dupOnlyUniqueS (addSpecificAffixFromSet g ctx s candidates rng).2.1 := by
  unfold addSpecificAffixFromSet
  dsimp only
  split
  · exact h
  · next c0 rest heq =>
    have hsel : ∀ c ∈ c0 :: rest, ∀ rng2 : Rng,
        dupOnlyUniqueS (addAffixById g ctx s c.id c.tier rng2).2.1 := by
      intro c hc rng2
      have hmem : c ∈ candidates.filter
          (specificCandidateOk g ctx s s.existingIds) := heq ▸ hc
      have hok := List.of_mem_filter hmem
      exact dupOnlyUniqueS_addAffixById g ctx s c.id c.tier rng2 h
        (specificCandidateOk_fresh g ctx s s.existingIds c hok)
    split
    · exact hsel c0 (List.mem_cons_self ..) rng
    · cases hpick : pickWeightedBy (·.weight) (c0 :: rest)
          (genRangeNatLt (((c0 :: rest).map (·.weight)).sum) rng).1 with
      | some c =>
        simp only [hpick, Option.getD_some]
        exact hsel c (pickWeightedBy_mem _ _ _ _ hpick) _
      | none =>
        simp only [hpick, Option.getD_none]
        exact hsel c0 (List.mem_cons_self ..) _

theorem uniqueModsFromRecipe_ids (g : Config) (recipe : UniqueRecipeConfig)
    (u : UniqueConfig) (snap : List (StatType × (Int × String))) :
    ∀ (i : Nat) (mods : List UniqueModConfig) (rng : Rng),
    ∀ m ∈ (uniqueModsFromRecipe g recipe u snap i mods rng).1,
    m.affixId = "unique_" ++ recipe.uniqueId
  | _, [], _, m, hm => absurd hm (List.not_mem_nil _)
  | i, mc :: rest, rng, m, hm => by
    unfold uniqueModsFromRecipe at hm
    dsimp only at hm
    rcases List.mem_cons.mp hm with rfl | hmem
    · rfl
    · exact uniqueModsFromRecipe_ids g recipe u snap (i + 1) rest _ m hmem

set_option maxRecDepth 4000 in
theorem dupOnlyUniqueS_tryUnique (g : Config) (ctx : CraftCtx)
    (s : CraftState) (rng : Rng) (h : dupOnlyUniqueS s) :
    dupOnlyUniqueS (tryUniqueTransformation g ctx s rng).2.1 := by
  unfold tryUniqueTransformation
  dsimp only
  split
  · exact h
  · split
    · exact h
    · next recipe hpick =>
      split
      · exact h
      · next u hu =>
        refine pairwise_idR_of_all_unique _ ?_
        intro a ha
        simp only [CraftState.existingIds, List.append_nil, List.mem_map]
          at ha
        obtain ⟨m, hm, rfl⟩ := ha
        rw [uniqueModsFromRecipe_ids g recipe u _ 0 u.mods _ m hm]
        exact ⟨recipe.uniqueId, rfl⟩

theorem dupOnlyUniqueS_mk (nm : String) (r : Rarity) (s : CraftState)
    (h : dupOnlyUniqueS s) :
    dupOnlyUniqueS ⟨nm, r, s.prefixes, s.suffixes⟩ := h

theorem dupOnlyUniqueS_stageSetRarity (ctx : CraftCtx)
    (effects : CurrencyEffects) (s : CraftState) (rng : Rng)
    (h : dupOnlyUniqueS s) :
    dupOnlyUniqueS (stageSetRarity ctx effects s rng).1 := by
  unfold stageSetRarity
  split
  · exact h
  · dsimp only
    split
    · exact dupOnlyUniqueS_mk _ _ s h
    · exact dupOnlyUniqueS_mk _ _ s h

theorem dupOnlyUniqueS_stageClear (ctx : CraftCtx)
    (effects : CurrencyEffects) (s : CraftState) (h : dupOnlyUniqueS s) :
    dupOnlyUniqueS (stageClear ctx effects s) := by
  unfold stageClear
  split
  · dsimp only
    split
    · exact List.Pairwise.nil
    · exact List.Pairwise.nil
  · exact h

theorem dupOnlyUniqueS_andThenE (r : Option CurrencyError × CraftState × Rng)
    (f : CraftState → Rng → Option CurrencyError × CraftState × Rng)
    (hr : dupOnlyUniqueS r.2.1)
    (hf : ∀ s rng, dupOnlyUniqueS s → dupOnlyUniqueS (f s rng).2.1) :
    dupOnlyUniqueS (andThenE r f).2.1 := by
  unfold andThenE
  rcases r with ⟨e, s, rng⟩
  cases e with
  | some err => exact hr
  | none => exact hf s rng hr

theorem dupOnlyUniqueS_core (g : Config) (ctx : CraftCtx)
    (cur : CurrencyConfig) (s : CraftState) (rng : Rng)
    (h : dupOnlyUniqueS s) :
    dupOnlyUniqueS (applyCurrencyCore g ctx cur s rng).2.1 := by
  unfold applyCurrencyCore
  split
  · exact h
  · dsimp only
    have h1 := dupOnlyUniqueS_stageSetRarity ctx cur.effects s rng h
    have h2 := dupOnlyUniqueS_stageClear ctx cur.effects _ h1
    refine dupOnlyUniqueS_andThenE _ _ ?_ ?_
    · split
      · exact dupOnlyUniqueS_removeLoop _ _ _ h2
      · exact h2
    · intro s3 rng3 h3
      refine dupOnlyUniqueS_andThenE _ _ ?_ ?_
      · split
        · exact dupOnlyUniqueS_rerollLoop g ctx cur.effects.affixPools _ _ _ h3
        · exact h3
      · intro s4 rng4 h4
        dsimp only
        have h5 := dupOnlyUniqueS_stageAddAffixes g ctx cur.effects s4 rng4 h4
        refine dupOnlyUniqueS_andThenE _ _ ?_ ?_
        · split
          · exact dupOnlyUniqueS_addSpecific g ctx _ _ _ h5
          · exact h5
        · intro s6 rng6 h6
          split
          · exact dupOnlyUniqueS_tryUnique g ctx s6 rng6 h6
          · exact h6

theorem rollBaseItem_suffixes (base : BaseTypeConfig) (seed : Nat)
    (rng : Rng) : (rollBaseItem base seed rng).1.suffixes = [] := by
  rw [rollBaseItem_pair]
  rfl

theorem rollUniqueMods_ids (uniqueId : String) (u : UniqueConfig) :
    ∀ (mods : List UniqueModConfig) (rng : Rng),
    ∀ m ∈ (rollUniqueMods uniqueId u mods rng).1,
    m.affixId = "unique_" ++ uniqueId
  | [], _, m, hm => absurd hm (List.not_mem_nil _)
  | mc :: rest, rng, m, hm => by
    unfold rollUniqueMods at hm
    dsimp only at hm
    rcases List.mem_cons.mp hm with rfl | hmem
    · rfl
    · exact rollUniqueMods_ids uniqueId u rest _ m hmem

theorem dupOnlyUnique_generateUnique (g : Config) (uniqueId : String)
    (seed : Nat) (it : Item) (h : generateUnique g uniqueId seed = some it) :
    dupOnlyUnique it := by
  unfold generateUnique at h
  cases hu : g.getUnique uniqueId with
  | none => simp only [hu] at h; cases h
  | some u =>
    simp only [hu] at h
    cases hb : g.getBase u.baseType with
    | none => simp only [hb] at h; cases h
    | some base =>
      simp only [hb] at h
      have hit := (Option.some.inj h).symm
      rw [hit]
      unfold dupOnlyUnique
      simp only [rollBaseItem_suffixes, List.append_nil]
      refine pairwise_idR_of_all_unique _ ?_
      intro a ha
      rw [List.mem_map] at ha
      obtain ⟨m, hm, rfl⟩ := ha
      rw [rollUniqueMods_ids uniqueId u u.mods _ m hm]
      exact ⟨uniqueId, rfl⟩

theorem dupOnlyUnique_applyCurrencyPure (g : Config) (it : Item)
    (currencyId : String) (it' : Item) (h : dupOnlyUnique it)
    (hok : applyCurrencyPure g it currencyId = .ok it') :
    dupOnlyUnique it' := by
  cases hc : g.getCurrency currencyId with
  | none => simp only [applyCurrencyPure, hc] at hok; cases hok
  | some cur =>
    simp only [applyCurrencyPure, hc] at hok
    cases he : (applyCurrency g it cur (replayRng g it)).1 with
    | some err => rw [he] at hok; simp at hok
    | none =>
      rw [he] at hok
      have hok2 := Except.ok.inj hok
      rw [← hok2]
      exact dupOnlyUniqueS_core g it.ctx cur it.craft (replayRng g it) h

theorem dupOnlyUnique_applyChain (g : Config) :
    ∀ (cids : List String) (it it' : Item), dupOnlyUnique it →
    applyChain g it cids = .ok it' → dupOnlyUnique it'
  | [], it, it', h, hok => by
    unfold applyChain at hok
    exact (Except.ok.inj hok) ▸ h
  | cid :: rest, it, it', h, hok => by
    unfold applyChain at hok
    cases hstep : applyCurrencyPure g it cid with
    | error e => rw [hstep] at hok; cases hok
    | ok it1 =>
      rw [hstep] at hok
      exact dupOnlyUnique_applyChain g rest it1 it'
        (dupOnlyUnique_applyCurrencyPure g it cid it1 h hstep) hok

/-- C4 counterexample: generating the two-mod unique puts two modifiers
with the same affix id unique_u on the item, so the no-duplicate claim
fails on an item reachable by generate_unique. -/
theorem c4_affix_id_counterexample :
    (generateUnique cfgU "u" 0).map
      (fun it => (it.prefixes ++ it.suffixes).map (·.affixId)) =
      some ["unique_u", "unique_u"] ∧
    ¬ (∀ it, generateUnique cfgU "u" 0 = some it →
        List.Nodup ((it.prefixes ++ it.suffixes).map (·.affixId))) := by
  refine ⟨rfl, fun hall => ?_⟩
  have := hall ((generateUnique cfgU "u" 0).getD arbitraryItem) (by rfl)
  exact absurd this (by decide)

/-- C4 (amended): for every item reachable by generate, generate_unique or
any sequence of successful currency applications, any two modifiers in
prefixes and suffixes that share an affix id share a synthetic unique-mod
id of the form unique_<unique_id>; equivalently, no two modifiers share an
affix id except the modifiers realized together by a unique generation or
transformation, which all carry that one synthetic id. -/
theorem c4_affix_id_uniqueness (g : Config) (start it' : Item)
    (cids : List String)
    (hstart : (∃ b s, generate g b s = some start) ∨
      (∃ u s, generateUnique g u s = some start))
    (hchain : applyChain g start cids = .ok it') :
    dupOnlyUnique it' := by
  refine dupOnlyUnique_applyChain g cids start it' ?_ hchain
  rcases hstart with ⟨b, s, hgen⟩ | ⟨u, s, hgen⟩
  · obtain ⟨base, hb, rfl⟩ := generate_eq g b s start hgen
    rw [dupOnlyUnique_iff_craft]
    unfold dupOnlyUniqueS
    rw [rollBaseItem_craft]
    exact List.Pairwise.nil
  · exact dupOnlyUnique_generateUnique g u s start hgen

/-- C4 witness: the amended invariant evaluated through a two-step chain on
the generated test item. -/
theorem c4_affix_id_uniqueness_witness :
    dupOnlyUnique ((applyChain cfgA ((generate cfgA "b" 7).getD arbitraryItem)
      ["t", "adda"]).toOption.getD arbitraryItem) :=
  c4_affix_id_uniqueness cfgA ((generate cfgA "b" 7).getD arbitraryItem)
    ((applyChain cfgA ((generate cfgA "b" 7).getD arbitraryItem)
      ["t", "adda"]).toOption.getD arbitraryItem)
    ["t", "adda"] (Or.inl ⟨"b", 7, by rfl⟩) (by rfl)

@[simp]
theorem Item.withCraft_withCraft (it : Item) (s1 s2 : CraftState) :
    (it.withCraft s1).withCraft s2 = it.withCraft s2 := rfl

@[simp]
theorem Item.ctx_setOps (it : Item) (o : List Operation) :
    ({ it with operations := o } : Item).ctx = it.ctx := rfl

@[simp]
theorem Item.craft_setOps (it : Item) (o : List Operation) :
    ({ it with operations := o } : Item).craft = it.craft := rfl

@[simp]
theorem Item.seed_setOps (it : Item) (o : List Operation) :
    ({ it with operations := o } : Item).seed = it.seed := rfl

@[simp]
theorem Item.baseTypeId_setOps (it : Item) (o : List Operation) :
    ({ it with operations := o } : Item).baseTypeId = it.baseTypeId := rfl

@[simp]
theorem Item.implicit_setOps (it : Item) (o : List Operation) :
    ({ it with operations := o } : Item).implicit = it.implicit := rfl

@[simp]
theorem Item.defenses_setOps (it : Item) (o : List Operation) :
    ({ it with operations := o } : Item).defenses = it.defenses := rfl

@[simp]
theorem Item.damage_setOps (it : Item) (o : List Operation) :
    ({ it with operations := o } : Item).damage = it.damage := rfl

theorem getBase_id (g : Config) (baseTypeId : String) (base : BaseTypeConfig)
    (h : g.getBase baseTypeId = some base) : base.id = baseTypeId := by
  unfold Config.getBase at h
  have h2 := List.find?_some h
  exact beq_iff_eq.mp h2

/-- The operation replay restricted to the craft view: the same fold as
`applyOps`, with unknown ids skipped and errors ignored, acting on the
fields the pipeline can touch. -/
def applyOpsCore (g : Config) (ctx : CraftCtx) :
    List Operation → CraftState → Rng → CraftState × Rng
  | [], s, rng => (s, rng)
  | .currency currencyId :: rest, s, rng =>
    match g.getCurrency currencyId with
    | none => applyOpsCore g ctx rest s rng
    | some cur =>
      let r := applyCurrencyCore g ctx cur s rng
      applyOpsCore g ctx rest r.2.1 r.2.2

/-- The full-item replay is the craft-view replay written back into the
item: replaying operations never touches the fields outside the craft
view. -/
theorem applyOps_core_spec (g : Config) :
    ∀ (ops : List Operation) (it : Item) (rng : Rng),
    applyOps g it rng ops =
      (it.withCraft (applyOpsCore g it.ctx ops it.craft rng).1,
        (applyOpsCore g it.ctx ops it.craft rng).2)
  | [], it, rng => by simp [applyOps, applyOpsCore]
  | .currency currencyId :: rest, it, rng => by
    unfold applyOps applyOpsCore
    cases hc : g.getCurrency currencyId with
    | none =>
      simp only [hc]
      exact applyOps_core_spec g rest it rng
    | some cur =>
      simp only [hc]
      rw [applyOps_core_spec g rest]
      simp

theorem applyOpsCore_append (g : Config) (ctx : CraftCtx) :
    ∀ (ops1 ops2 : List Operation) (s : CraftState) (rng : Rng),
    applyOpsCore g ctx (ops1 ++ ops2) s rng =
      applyOpsCore g ctx ops2 (applyOpsCore g ctx ops1 s rng).1
        (applyOpsCore g ctx ops1 s rng).2
  | [], ops2, s, rng => rfl
  | .currency currencyId :: rest, ops2, s, rng => by
    have ih := fun s rng => applyOpsCore_append g ctx rest ops2 s rng
    simp only [List.cons_append, applyOpsCore]
    cases hc : g.getCurrency currencyId with
    | none =>
      simp only [hc]
      exact ih s rng
    | some cur =>
      simp only [hc]
      exact ih _ _

/-- The RNG state right after the initial-generation section of
`replay_rng`: the raw skip plus the re-roll of implicit and defenses. -/
def initRng (base : BaseTypeConfig) (seed : Nat) : Rng :=
  (rollBaseItem base seed (Rng.advance ⟨seed, 0⟩ (countInitDraws base))).2

/-- The read-only craft context a base type induces. -/
def baseCtx (base : BaseTypeConfig) : CraftCtx := (newNormalItem base 0).ctx

/-- The craft state of a fresh normal item of a base type. -/
def baseCraft (base : BaseTypeConfig) : CraftState := (newNormalItem base 0).craft

/-- The craft view and RNG state reached by replaying an operation list over
a fresh item of the base from the post-generation RNG state. -/
def foldCS (g : Config) (base : BaseTypeConfig) (seed : Nat)
    (ops : List Operation) : CraftState × Rng :=
  applyOpsCore g (baseCtx base) ops (baseCraft base) (initRng base seed)

/-- replay_rng computes exactly the RNG component of the craft-view fold
over the item's logged operations. -/
theorem replayRng_eq (g : Config) (it : Item) (base : BaseTypeConfig)
    (hb : g.getBase it.baseTypeId = some base) :
    replayRng g it = (foldCS g base it.seed it.operations).2 := by
  unfold replayRng
  simp only [hb]
  rw [rollBaseItem_pair]
  rw [applyOps_core_spec]
  rfl

theorem foldCS_snoc (g : Config) (base : BaseTypeConfig) (seed : Nat)
    (ops : List Operation) (currencyId : String) (cur : CurrencyConfig)
    (hc : g.getCurrency currencyId = some cur) :
    foldCS g base seed (ops ++ [.currency currencyId]) =
      ((applyCurrencyCore g (baseCtx base) cur (foldCS g base seed ops).1
          (foldCS g base seed ops).2).2.1,
        (applyCurrencyCore g (baseCtx base) cur (foldCS g base seed ops).1
          (foldCS g base seed ops).2).2.2) := by
  unfold foldCS
  rw [applyOpsCore_append]
  simp only [applyOpsCore, hc]

/-- An item whose craft view is exactly what the craft-view fold of its own
operation log produces from a fresh item of its base. -/
def tracked (g : Config) (base : BaseTypeConfig) (it : Item) : Prop :=
  g.getBase it.baseTypeId = some base ∧ it.ctx = baseCtx base ∧
    it.craft = (foldCS g base it.seed it.operations).1

/-- One successful pure apply preserves trackedness: the committed item's
craft view is the fold of the extended log, the log grows by exactly the
applied operation, and the non-craft fields are untouched. -/
theorem tracked_step (g : Config) (base : BaseTypeConfig) (it it' : Item)
    (currencyId : String) (ht : tracked g base it)
    (hok : applyCurrencyPure g it currencyId = .ok it') :
    tracked g base it' ∧ it'.seed = it.seed ∧
      it'.operations = it.operations ++ [.currency currencyId] ∧
      it'.implicit = it.implicit ∧ it'.defenses = it.defenses ∧
      it'.damage = it.damage := by
  obtain ⟨hb, hctx, hcraft⟩ := ht
  unfold applyCurrencyPure at hok
  cases hc : g.getCurrency currencyId with
  | none =>
    simp only [hc] at hok
    cases hok
  | some cur =>
    simp only [hc] at hok
    cases he : (applyCurrency g it cur (replayRng g it)).1 with
    | some err =>
      simp only [he] at hok
      cases hok
    | none =>
      simp only [he] at hok
      have hit' : it' = { (applyCurrency g it cur (replayRng g it)).2.1 with
          operations := (applyCurrency g it cur (replayRng g it)).2.1.operations
            ++ [.currency currencyId] } := (Except.ok.inj hok).symm
      have hseed : it'.seed = it.seed := by
        rw [hit']
        show (applyCurrency g it cur (replayRng g it)).2.1.seed = it.seed
        rw [applyCurrency_item, Item.seed_withCraft]
      have hops : it'.operations =
          it.operations ++ [Operation.currency currencyId] := by
        rw [hit']
        show (applyCurrency g it cur (replayRng g it)).2.1.operations
            ++ [Operation.currency currencyId] =
          it.operations ++ [Operation.currency currencyId]
        rw [applyCurrency_item, Item.operations_withCraft]
      have hbid : it'.baseTypeId = it.baseTypeId := by
        rw [hit']
        show (applyCurrency g it cur (replayRng g it)).2.1.baseTypeId =
          it.baseTypeId
        rw [applyCurrency_item, Item.baseTypeId_withCraft]
      have hctx' : it'.ctx = it.ctx := by
        rw [hit']
        show (applyCurrency g it cur (replayRng g it)).2.1.ctx = it.ctx
        rw [applyCurrency_item, Item.ctx_withCraft]
      have hcraft' : it'.craft =
          (applyCurrencyCore g it.ctx cur it.craft (replayRng g it)).2.1 := by
        rw [hit']
        show (applyCurrency g it cur (replayRng g it)).2.1.craft =
          (applyCurrencyCore g it.ctx cur it.craft (replayRng g it)).2.1
        rw [applyCurrency_item, Item.craft_withCraft]
      have hfold : (foldCS g base it.seed
            (it.operations ++ [Operation.currency currencyId])).1 =
          (applyCurrencyCore g it.ctx cur it.craft (replayRng g it)).2.1 := by
        rw [foldCS_snoc g base it.seed it.operations currencyId cur hc]
        dsimp only
        rw [← hctx, ← hcraft, ← replayRng_eq g it base hb]
      refine ⟨⟨?_, ?_, ?_⟩, hseed, hops, ?_, ?_, ?_⟩
      · rw [hbid]; exact hb
      · rw [hctx']; exact hctx
      · rw [hcraft', hseed, hops]; exact hfold.symm
      · rw [hit']
        show (applyCurrency g it cur (replayRng g it)).2.1.implicit = it.implicit
        rw [applyCurrency_item, Item.implicit_withCraft]
      · rw [hit']
        show (applyCurrency g it cur (replayRng g it)).2.1.defenses = it.defenses
        rw [applyCurrency_item, Item.defenses_withCraft]
      · rw [hit']
        show (applyCurrency g it cur (replayRng g it)).2.1.damage = it.damage
        rw [applyCurrency_item, Item.damage_withCraft]

/-- A successful chain of pure applies preserves trackedness and appends
exactly the chained operations to the log, leaving non-craft fields
untouched. -/
theorem tracked_chain (g : Config) (base : BaseTypeConfig) :
    ∀ (cids : List String) (it it' : Item), tracked g base it →
    applyChain g it cids = .ok it' →
    tracked g base it' ∧ it'.seed = it.seed ∧
      it'.operations = it.operations ++ cids.map Operation.currency ∧
      it'.implicit = it.implicit ∧ it'.defenses = it.defenses ∧
      it'.damage = it.damage
  | [], it, it', ht, hok => by
    unfold applyChain at hok
    obtain rfl : it = it' := Except.ok.inj hok
    exact ⟨ht, rfl, by simp, rfl, rfl, rfl⟩
  | cid :: rest, it, it', ht, hok => by
    unfold applyChain at hok
    cases hstep : applyCurrencyPure g it cid with
    | error e =>
      simp only [hstep] at hok
      cases hok
    | ok itm =>
      simp only [hstep] at hok
      obtain ⟨ht1, hs1, ho1, hi1, hd1, hdm1⟩ :=
        tracked_step g base it itm cid ht hstep
      obtain ⟨ht2, hs2, ho2, hi2, hd2, hdm2⟩ :=
        tracked_chain g base rest itm it' ht1 hok
      refine ⟨ht2, by rw [hs2, hs1], ?_, by rw [hi2, hi1], by rw [hd2, hd1],
        by rw [hdm2, hdm1]⟩
      rw [ho2, ho1, List.append_assoc]
      rfl

/-- C1: for every base type id, seed, and sequence of currency ids each of
whose successive pure applications succeeds, reconstruct on the resulting
operation log succeeds and yields an item equal to the chained result in
every derived field: name, rarity, implicit, defenses, prefixes, suffixes
and damage. -/
theorem c1_reconstruct_refines_pure_chain (g : Config) (baseTypeId : String)
    (seed : Nat) (cids : List String) (item0 itemN : Item)
    (h0 : generate g baseTypeId seed = some item0)
    (hN : applyChain g item0 cids = .ok itemN) :
    ∃ itemR, reconstruct g baseTypeId seed (cids.map Operation.currency) =
        some itemR ∧
      itemR.name = itemN.name ∧ itemR.rarity = itemN.rarity ∧
      itemR.implicit = itemN.implicit ∧ itemR.defenses = itemN.defenses ∧
      itemR.prefixes = itemN.prefixes ∧ itemR.suffixes = itemN.suffixes ∧
      itemR.damage = itemN.damage := by
  obtain ⟨base, hb, heq0⟩ := generate_eq g baseTypeId seed item0 h0
  have hbid0 : item0.baseTypeId = baseTypeId := by
    rw [heq0, rollBaseItem_pair]
    show base.id = baseTypeId
    exact getBase_id g baseTypeId base hb
  have hseed0 : item0.seed = seed := by
    rw [heq0]; exact rollBaseItem_seed base seed _
  have hops0 : item0.operations = [] := by
    rw [heq0]; exact rollBaseItem_operations base seed _
  have hctx0 : item0.ctx = baseCtx base := by
    rw [heq0, rollBaseItem_ctx]; rfl
  have hcraft0p : item0.craft = baseCraft base := by
    rw [heq0, rollBaseItem_craft]; rfl
  have ht0 : tracked g base item0 := by
    refine ⟨by rw [hbid0]; exact hb, hctx0, ?_⟩
    rw [hops0, hcraft0p]
    rfl
  obtain ⟨htN, hseedN, hopsN, himpN, hdefN, hdamN⟩ :=
    tracked_chain g base cids item0 itemN ht0 hN
  have hrec : reconstruct g baseTypeId seed (cids.map Operation.currency) =
      some { (applyOps g item0 (replayRng g item0)
               (cids.map Operation.currency)).1
             with operations := cids.map Operation.currency } := by
    unfold reconstruct
    rw [h0, Option.map_some']
  have hrepl : replayRng g item0 = (foldCS g base seed []).2 := by
    rw [replayRng_eq g item0 base (by rw [hbid0]; exact hb), hseed0, hops0]
  have happ : (applyOps g item0 (replayRng g item0)
        (cids.map Operation.currency)).1 =
      item0.withCraft (foldCS g base seed (cids.map Operation.currency)).1 := by
    rw [applyOps_core_spec]
    dsimp only
    rw [hctx0, hcraft0p, hrepl]
    rfl
  have hSN : (foldCS g base seed (cids.map Operation.currency)).1 =
      itemN.craft := by
    rw [htN.2.2, hseedN, hseed0, hopsN, hops0, List.nil_append]
  rw [happ, hSN] at hrec
  refine ⟨_, hrec, rfl, rfl, ?_, ?_, rfl, rfl, ?_⟩
  · show item0.implicit = itemN.implicit
    exact himpN.symm
  · show item0.defenses = itemN.defenses
    exact hdefN.symm
  · show item0.damage = itemN.damage
    exact hdamN.symm

/-- Concrete generated item used by the C1 witness. -/
def c1item0 : Item := (generate cfgA "b" 7).getD arbitraryItem

/-- Concrete chained item used by the C1 witness: transmute then augment. -/
def c1itemN : Item :=
  (applyChain cfgA c1item0 ["t", "adda"]).toOption.getD arbitraryItem

theorem c1_reconstruct_refines_pure_chain_witness :
    generate cfgA "b" 7 = some c1item0 ∧
    applyChain cfgA c1item0 ["t", "adda"] = .ok c1itemN ∧
    ∃ itemR, reconstruct cfgA "b" 7 (["t", "adda"].map Operation.currency) =
        some itemR ∧
      itemR.name = c1itemN.name ∧ itemR.rarity = c1itemN.rarity ∧
      itemR.implicit = c1itemN.implicit ∧ itemR.defenses = c1itemN.defenses ∧
      itemR.prefixes = c1itemN.prefixes ∧ itemR.suffixes = c1itemN.suffixes ∧
      itemR.damage = c1itemN.damage :=
  ⟨rfl, rfl,
    c1_reconstruct_refines_pure_chain cfgA "b" 7 ["t", "adda"] c1item0 c1itemN
      rfl rfl⟩
